import Mathlib

/-! # EpubToTxt: a verification development

The repository holds two near-duplicate Go programs, `main.go` and
`epubToTxt.go`, that turn an EPUB archive into one text file.  The functions
whose text is the same in both files are embedded once, at top level; the
functions that differ (`readHTMLFiles`, `readUserInput`, `main`) are embedded
twice, in the namespaces `Main` (for `main.go`) and `EpubToTxt`
(for `epubToTxt.go`).

Conventions of the embedding.

* A Go `string` (and the `[]byte` obtained from one) is a Lean `String`, read
  as its UTF-8 encoding: `len s` is `String.utf8ByteSize`, `[]rune(s)` is the
  list of characters.
* A Go slice is a list; the slice `regexes`, which the code tests against
  `nil`, is an `Option (List regexValues)`, `none` being `nil`.
* A run of the program either ends normally with a value, or is cut short by
  `log.Fatal` or by a run-time panic: functions that can be cut short return
  `Except Abort α`.
* Library code outside the repository that the claims do not look into
  (package `regexp`, `goquery`, `encoding/xml`) is a parameter, gathered in
  the structure `Lib`.  Package `path/filepath` is modelled for a system whose
  separator is the forward slash.
-/

/-! ## Package `path/filepath` (forward-slash separator) -/

namespace filepath

/-- The path separator, `os.PathSeparator`. -/
def Separator : Char := '/'

/-- The elements of a path: the pieces between separators, empty ones
included. -/
def elements : List Char → List (List Char)
  | [] => [[]]
  | c :: cs =>
    match elements cs with
    | [] => [[c]]
    | w :: ws => if c = Separator then [] :: w :: ws else (c :: w) :: ws

/-- One round of the loop of `Clean`, on a whole path element.  `out` is the
list of elements written so far, last one first.  An empty element and `.`
are dropped; `..` removes the last element written when there is one that is
not itself `..` ("can backtrack"), is dropped at the root, and is written
otherwise; any other element is written. -/
def cleanStep (rooted : Bool) (out : List (List Char)) (e : List Char) :
    List (List Char) :=
  if e = [] then out
  else if e = ['.'] then out
  else if e = ['.', '.'] then
    match out with
    | [] => if rooted then [] else [e]
    | top :: rest => if top = ['.', '.'] then e :: out else rest
  else e :: out

/-- Go's `filepath.Clean`: the shortest path equivalent to `path` by purely
lexical processing. -/
def Clean (path : String) : String :=
  if path = "" then "."
  else
    let rooted := path.data.head? == some Separator
    let out := (elements path.data).foldl (cleanStep rooted) []
    let body := [Separator].intercalate out.reverse
    if rooted then ⟨Separator :: body⟩
    else if body = [] then "."
    else ⟨body⟩

/-- The backward scan of `filepath.Ext`: `rev` is the part of the path not
yet looked at, last byte first, and `seen` the bytes already passed. -/
def extScan : List Char → List Char → List Char
  | [], _ => []
  | c :: rev, seen =>
    if c = Separator then []
    else if c = '.' then c :: seen
    else extScan rev (c :: seen)

/-- Go's `filepath.Ext`: the suffix beginning at the final dot in the final
element of `path`; empty if there is no dot. -/
def Ext (path : String) : String := ⟨extScan path.data.reverse []⟩

/-- Go's `filepath.Base`: the last element of `path`, trailing separators
removed first. -/
def Base (path : String) : String :=
  if path = "" then "."
  else
    let stripped := path.data.reverse.dropWhile (· == Separator)
    let last := (stripped.takeWhile (· != Separator)).reverse
    if last = [] then ⟨[Separator]⟩ else ⟨last⟩

/-- Go's `filepath.Dir`: all but the last element of `path`, cleaned. -/
def Dir (path : String) : String :=
  Clean ⟨(path.data.reverse.dropWhile (· != Separator)).reverse⟩

/-- Go's `strings.Join(elem, "/")`. -/
def joinWithSeparator : List String → String
  | [] => ""
  | [e] => e
  | e :: es => e ++ ⟨[Separator]⟩ ++ joinWithSeparator es

/-- Go's `filepath.Join`: leading empty elements are ignored, the rest is
joined with the separator and cleaned; all empty gives the empty string. -/
def Join : List String → String
  | [] => ""
  | e :: es => if e ≠ "" then Clean (joinWithSeparator (e :: es)) else Join es

end filepath

/-! ## Outcomes of a run -/

deriving instance DecidableEq for Except

/-- How a run is cut short: `log.Fatal` prints the message and exits with
status 1; a run-time panic (here: `regexp.MustCompile` on a bad pattern, or
an index or slice bound out of range) ends the process as well. -/
inductive Abort where
  | fatal (msg : String)
  | panic (msg : String)
deriving DecidableEq, Repr

/-- Go's `checkError`: `log.Fatal(err)` when `err` is not nil. -/
def checkError (err : Option String) : Except Abort Unit :=
  match err with
  | none => .ok ()
  | some e => .error (.fatal e)

/-! ## Data model -/

/-- An entry of the opened archive, `*zip.File`: its stored name, and what
`f.Open()` followed by `io.Copy` gives: the error of `Open`, or the bytes
copied (the error of `io.Copy` is dropped by the source). -/
structure zipFile where
  Name : String
  Open : Except String String
deriving DecidableEq, Repr

/-- The `rootfile` element of `containerXMLParams`. -/
structure rootFile where
  FullPath : String
  MediaType : String
deriving DecidableEq, Repr

/-- The `rootfiles` element of `containerXMLParams`. -/
structure rootFiles where
  RootFile : rootFile
deriving DecidableEq, Repr

/-- Go's `containerXMLParams`. -/
structure containerXMLParams where
  RootFiles : rootFiles
deriving DecidableEq, Repr

/-- An `item` of the manifest in `opfXMLParams`. -/
structure manifestItem where
  Href : String
  MediaType : String
  ID : String
deriving DecidableEq, Repr

/-- An `itemref` of the spine in `opfXMLParams`. -/
structure itemRef where
  Idref : String
deriving DecidableEq, Repr

/-- The `manifest` element of `opfXMLParams`. -/
structure opfManifest where
  Items : List manifestItem
deriving DecidableEq, Repr

/-- The `spine` element of `opfXMLParams`. -/
structure opfSpine where
  ItemRefs : List itemRef
deriving DecidableEq, Repr

/-- Go's `opfXMLParams`. -/
structure opfXMLParams where
  Manifest : opfManifest
  Spine : opfSpine
deriving DecidableEq, Repr

/-- Go's `regexValues`; the first field is called `pattern` in `main.go` and
`expression` in `epubToTxt.go`. -/
structure regexValues where
  pattern : String
  replacement : String
deriving DecidableEq, Repr

/-- Go's `inputParams`. -/
structure inputParams where
  epubDir : String
  outputFolder : String
  regexFile : String
deriving DecidableEq, Repr

/-! ## Libraries and file system -/

/-- The library code the program calls and the claims do not look into.

* `Compile` is `regexp.Compile`; `regexp.MustCompile` panics with its error.
* `ReplaceAll re doc repl` is `re.ReplaceAll(doc, repl)`.
* `NewDocumentFromReader` is `goquery.NewDocumentFromReader` on the bytes.
* `FindBodyText doc` lists `s.Text()` for the selections `s` that
  `doc.Find("body").Each` visits, in order.
* `unmarshalContainer` and `unmarshalOPF` are `xml.Unmarshal` into an empty
  `containerXMLParams` and `opfXMLParams`.
* `runeSlack s` is the capacity beyond the length of the slice that the
  conversion `[]rune(s)` makes, which the language leaves open. -/
structure Lib where
  Regexp : Type
  Compile : String → Except String Regexp
  ReplaceAll : Regexp → String → String → String
  Document : Type
  NewDocumentFromReader : String → Except String Document
  FindBodyText : Document → List String
  unmarshalContainer : String → Except String containerXMLParams
  unmarshalOPF : String → Except String opfXMLParams
  runeSlack : String → Nat

/-- What a `bufio.Scanner` over a file yields: the successive values of
`scanner.Text()` while `scanner.Scan()` is true, then `scanner.Err()`. -/
structure Scan where
  lines : List String
  err : Option String
deriving DecidableEq, Repr

/-- The files the program touches: `zip.OpenReader`, `os.Open` with a
scanner put on the file, and `os.Create` followed by `WriteString` (the
error of either, if any). -/
structure World where
  OpenReader : String → Except String (List zipFile)
  Open : String → Except String Scan
  Create : String → String → Option String

/-! ## Functions shared by `main.go` and `epubToTxt.go` -/

/-- Go's `strings.Replace(path, "\\", "/", -1)`: every backslash becomes a
forward slash. -/
def replaceBackslash (path : String) : String :=
  ⟨path.data.map (fun c => if c = '\\' then '/' else c)⟩

/-- The loop of `readFileFromZip` over `src.File`. -/
def readFileFromZip.loop (path pathOppositeSlash : String) :
    List zipFile → String × Option String
  | [] => ("", some "no such file")
  | f :: rest =>
    if f.Name = path ∨ f.Name = pathOppositeSlash then
      match f.Open with
      | .error err => ("", some err)
      | .ok buf => (buf, none)
    else readFileFromZip.loop path pathOppositeSlash rest

/-- Go's `readFileFromZip`, returning the pair `(string, error)`. -/
def readFileFromZip (src : List zipFile) (path : String) : String × Option String :=
  let pathOppositeSlash := replaceBackslash path
  readFileFromZip.loop path pathOppositeSlash src

/-- Go's `append(regexes, v)` on a slice that may be nil. -/
def appendRule (regexes : Option (List regexValues)) (v : regexValues) :
    Option (List regexValues) :=
  match regexes with
  | none => some [v]
  | some rs => some (rs ++ [v])

/-- Go's `regexes[idx].replacement = text`; `none` when the index is out of
range, where Go panics. -/
def setReplacement (regexes : Option (List regexValues)) (idx : Int) (text : String) :
    Option (Option (List regexValues)) :=
  let rs := regexes.getD []
  if 0 ≤ idx ∧ idx < rs.length then
    some (some (rs.modify (fun r => { r with replacement := text }) idx.toNat))
  else none

/-- The scanning loop of `readRegexFile`; `i` is the Go `int` counter, with
Go's truncated `%` and `/` (it does not wrap around: that would take 2^63
lines). -/
def readRegexFile.loop :
    List String → Option (List regexValues) → Int → Except Abort (Option (List regexValues))
  | [], regexes, _ => .ok regexes
  | text :: rest, regexes, i =>
    if Int.tmod (i + 1) 2 = 1 then
      readRegexFile.loop rest (appendRule regexes ⟨text, ""⟩) (i + 1)
    else
      match setReplacement regexes (Int.tdiv (i - 1) 2) text with
      | none => .error (.panic "index out of range")
      | some regexes' => readRegexFile.loop rest regexes' (i + 1)

/-- Go's `readRegexFile`. -/
def readRegexFile (w : World) (regexFile : String) :
    Except Abort (Option (List regexValues)) :=
  if regexFile = "" then .ok none
  else
    match w.Open regexFile with
    | .error err => .error (.fatal err)
    | .ok scanner =>
      match readRegexFile.loop scanner.lines none 0 with
      | .error a => .error a
      | .ok regexes =>
        match scanner.err with
        | some err => .error (.fatal err)
        | none => .ok regexes

/-- Go's `applyRegex`: `regexp.MustCompile` panics on a pattern that does
not compile. -/
def applyRegex (lib : Lib) (regex : regexValues) (doc : String) : Except Abort String :=
  match lib.Compile regex.pattern with
  | .error err => .error (.panic err)
  | .ok re => .ok (lib.ReplaceAll re doc regex.replacement)

/-- The loop `for _, regex := range regexes` inside `readHTMLFiles`. -/
def readHTMLFiles.rewriteLoop (lib : Lib) : List regexValues → String → Except Abort String
  | [], htmlContent => .ok htmlContent
  | regex :: rest, htmlContent =>
    match applyRegex lib regex htmlContent with
    | .error a => .error a
    | .ok htmlContent' => readHTMLFiles.rewriteLoop lib rest htmlContent'

/-- The statement `if regexes != nil { for ... }` inside `readHTMLFiles`. -/
def readHTMLFiles.rewrite (lib : Lib) (regexes : Option (List regexValues))
    (htmlContent : String) : Except Abort String :=
  match regexes with
  | none => .ok htmlContent
  | some rs => readHTMLFiles.rewriteLoop lib rs htmlContent

/-- The tail of the body of the loop of `readHTMLFiles`, from the parse on:
`goquery.NewDocumentFromReader`, `checkError`, and the `WriteString` of each
body's text onto `allData`. -/
def readHTMLFiles.extractOnto (lib : Lib) (allData htmlContent : String) :
    Except Abort String :=
  match lib.NewDocumentFromReader htmlContent with
  | .error err => .error (.fatal err)
  | .ok doc => .ok ((lib.FindBodyText doc).foldl (fun b t => b ++ t) allData)

/-- The inner loop of `getHTMLFileList`, over the manifest items, left at the
first match by `break`. -/
def getHTMLFileList.inner (opfFileDir : String) (idref : itemRef) :
    List manifestItem → List String → List String
  | [], fileList => fileList
  | item :: rest, fileList =>
    if item.ID = idref.Idref then fileList ++ [filepath.Join [opfFileDir, item.Href]]
    else getHTMLFileList.inner opfFileDir idref rest fileList

/-- The outer loop of `getHTMLFileList`, over the spine. -/
def getHTMLFileList.outer (opfData : opfXMLParams) (opfFileDir : String) :
    List itemRef → List String → List String
  | [], fileList => fileList
  | idref :: rest, fileList =>
    getHTMLFileList.outer opfData opfFileDir rest
      (getHTMLFileList.inner opfFileDir idref opfData.Manifest.Items fileList)

/-- Go's `getHTMLFileList`. -/
def getHTMLFileList (opfData : opfXMLParams) (opfFileDir : String) : List String :=
  getHTMLFileList.outer opfData opfFileDir opfData.Spine.ItemRefs []

/-- Go's `getOPFData`. -/
def getOPFData (lib : Lib) (src : List zipFile) (opfFilePath : String) :
    Except Abort opfXMLParams :=
  match readFileFromZip src opfFilePath with
  | (_, some err) => .error (.fatal err)
  | (opfContent, none) =>
    match lib.unmarshalOPF opfContent with
    | .error err => .error (.fatal err)
    | .ok opfData => .ok opfData

/-- Go's `getContainerData`. -/
def getContainerData (lib : Lib) (src : List zipFile) : Except Abort containerXMLParams :=
  let containerFile := filepath.Join ["META-INF", "container.xml"]
  match readFileFromZip src containerFile with
  | (_, some err) => .error (.fatal err)
  | (containerContent, none) =>
    match lib.unmarshalContainer containerContent with
    | .error err => .error (.fatal err)
    | .ok containerData => .ok containerData

/-- Go's `createTextFile`; the value is the file written, as path and text. -/
def createTextFile (w : World) (filePath text : String) : Except Abort (String × String) :=
  match w.Create filePath text with
  | some err => .error (.fatal err)
  | none => .ok (filePath, text)

/-- The leading characters whose encodings fit in `n` bytes. -/
def sliceBytesTo.takeBytes : List Char → Nat → List Char
  | [], _ => []
  | c :: cs, n =>
    if c.utf8Size ≤ n then c :: sliceBytesTo.takeBytes cs (n - c.utf8Size) else []

/-- Go's `s[:n]` on a string: the first `n` bytes; `none` when `n` is out of
range, where Go panics.  The characters are taken whole, which is what Go
gives whenever byte `n` starts a character. -/
def sliceBytesTo (s : String) (n : Int) : Option String :=
  if 0 ≤ n ∧ n ≤ s.utf8ByteSize then some ⟨sliceBytesTo.takeBytes s.data n.toNat⟩ else none

/-- Go's `r[:k]` on a slice of runes of the given spare capacity: the upper
bound of a slice expression is the capacity, and the elements between length
and capacity of a freshly converted slice are zero; `none` when `k` is out of
range, where Go panics. -/
def sliceRunesTo (runes : List Char) (slack : Nat) (k : Int) : Option (List Char) :=
  if k < 0 then none
  else if k.toNat ≤ runes.length then some (runes.take k.toNat)
  else if k.toNat ≤ runes.length + slack then
    some (runes ++ List.replicate (k.toNat - runes.length) (Char.ofNat 0))
  else none

/-- The name of the file `main` writes: `inputParams.outputFolder+".txt"`. -/
def outputFileName (p : inputParams) : String := p.outputFolder ++ ".txt"

/-! ## `main.go` -/

namespace Main

/-- The loop of `readHTMLFiles` in `main.go`; `allData` is the builder. -/
def readHTMLFiles.loop (lib : Lib) (src : List zipFile) (regexes : Option (List regexValues)) :
    List String → String → Except Abort String
  | [], allData => .ok allData
  | file :: rest, allData =>
    match readFileFromZip src file with
    | (_, some err) => .error (.fatal err)
    | (htmlCon, none) =>
      match readHTMLFiles.rewrite lib regexes htmlCon with
      | .error a => .error a
      | .ok htmlContent =>
        match readHTMLFiles.extractOnto lib allData htmlContent with
        | .error a => .error a
        | .ok allData' => readHTMLFiles.loop lib src regexes rest allData'

/-- Go's `readHTMLFiles` of `main.go`. -/
def readHTMLFiles (lib : Lib) (src : List zipFile) (fileList : List String)
    (regexes : Option (List regexValues)) : Except Abort String :=
  readHTMLFiles.loop lib src regexes fileList ""

/-- Go's `readUserInput` of `main.go`, on the values of the flags `-epub`,
`-regex` and `-output` (each empty when the flag is not given). -/
def readUserInput (epubDir regexFile outputFolder : String) : Except Abort inputParams :=
  if filepath.Ext epubDir ≠ ".epub" then .error (.fatal "Not a valid epub file!")
  else
    match sliceBytesTo epubDir
        ((epubDir.utf8ByteSize : Int) - ((filepath.Ext epubDir).utf8ByteSize : Int)) with
    | none => .error (.panic "slice bounds out of range")
    | some fileName =>
      if outputFolder = "" then
        .ok { epubDir := epubDir, regexFile := regexFile, outputFolder := fileName }
      else
        .ok { epubDir := epubDir, regexFile := regexFile,
              outputFolder := filepath.Join [outputFolder, fileName] }

/-- Go's `main` of `main.go`; the value is the file written. -/
def main (lib : Lib) (w : World) (epubDir regexFile outputFolder : String) :
    Except Abort (String × String) :=
  match readUserInput epubDir regexFile outputFolder with
  | .error a => .error a
  | .ok inputParams =>
    match w.OpenReader inputParams.epubDir with
    | .error err => .error (.fatal err)
    | .ok r =>
      match readRegexFile w inputParams.regexFile with
      | .error a => .error a
      | .ok regexes =>
        match getContainerData lib r with
        | .error a => .error a
        | .ok containerData =>
          let opfFilePath := filepath.Join [containerData.RootFiles.RootFile.FullPath]
          match getOPFData lib r opfFilePath with
          | .error a => .error a
          | .ok opfData =>
            let HTMLfileList := getHTMLFileList opfData (filepath.Dir opfFilePath)
            match readHTMLFiles lib r HTMLfileList regexes with
            | .error a => .error a
            | .ok allText => createTextFile w (outputFileName inputParams) allText

end Main

/-! ## `epubToTxt.go` -/

namespace EpubToTxt

/-- The loop of `readHTMLFiles` in `epubToTxt.go`: the error of
`readFileFromZip` is assigned and never looked at. -/
def readHTMLFiles.loop (lib : Lib) (src : List zipFile) (regexes : Option (List regexValues)) :
    List String → String → Except Abort String
  | [], allData => .ok allData
  | file :: rest, allData =>
    match readFileFromZip src file with
    | (htmlCon, _) =>
      match readHTMLFiles.rewrite lib regexes htmlCon with
      | .error a => .error a
      | .ok htmlContent =>
        match readHTMLFiles.extractOnto lib allData htmlContent with
        | .error a => .error a
        | .ok allData' => readHTMLFiles.loop lib src regexes rest allData'

/-- Go's `readHTMLFiles` of `epubToTxt.go`. -/
def readHTMLFiles (lib : Lib) (src : List zipFile) (fileList : List String)
    (regexes : Option (List regexValues)) : Except Abort String :=
  readHTMLFiles.loop lib src regexes fileList ""

/-- Go's `readUserInput` of `epubToTxt.go`, on `os.Args`. -/
def readUserInput (lib : Lib) (Args : List String) : Except Abort inputParams :=
  match Args.get? 1 with
  | none => .error (.panic "index out of range")
  | some epubDir =>
    let regexFile := if Args.length = 3 then Args.getD 2 "" else ""
    let base := filepath.Base epubDir
    match sliceRunesTo base.data (lib.runeSlack base)
        ((base.utf8ByteSize : Int) - ((filepath.Ext epubDir).utf8ByteSize : Int)) with
    | none => .error (.panic "slice bounds out of range")
    | some runes =>
      let fileName : String := ⟨runes⟩
      let outputFolder := filepath.Join [filepath.Dir epubDir, fileName]
      .ok { epubDir := epubDir, outputFolder := outputFolder, regexFile := regexFile }

/-- Go's `main` of `epubToTxt.go`; the value is the file written. -/
def main (lib : Lib) (w : World) (Args : List String) : Except Abort (String × String) :=
  match readUserInput lib Args with
  | .error a => .error a
  | .ok inputParams =>
    match w.OpenReader inputParams.epubDir with
    | .error err => .error (.fatal err)
    | .ok r =>
      match readRegexFile w inputParams.regexFile with
      | .error a => .error a
      | .ok regexes =>
        match getContainerData lib r with
        | .error a => .error a
        | .ok containerData =>
          let opfFilePath := filepath.Join [containerData.RootFiles.RootFile.FullPath]
          match getOPFData lib r opfFilePath with
          | .error a => .error a
          | .ok opfData =>
            let HTMLfileList := getHTMLFileList opfData (filepath.Dir opfFilePath)
            match readHTMLFiles lib r HTMLfileList regexes with
            | .error a => .error a
            | .ok allText => createTextFile w (outputFileName inputParams) allText

end EpubToTxt

/-! ## Definitions used to state the properties -/

/-- The path `getHTMLFileList` emits for one itemref: the join of the
directory with the href of the first manifest item of that id, if any. -/
def resolveIdref (items : List manifestItem) (opfFileDir : String) (idref : itemRef) :
    Option String :=
  (items.find? (fun item => decide (item.ID = idref.Idref))).map
    (fun item => filepath.Join [opfFileDir, item.Href])

/-- The test of `readFileFromZip` on one entry: its stored name equals the
query or the query with every backslash replaced. -/
def nameMatches (path : String) (f : zipFile) : Bool :=
  decide (f.Name = path ∨ f.Name = replaceBackslash path)

/-- The value of `readFileFromZip` on a matched entry. -/
def openEntry (f : zipFile) : String × Option String :=
  match f.Open with
  | .error err => ("", some err)
  | .ok buf => (buf, none)

/-- A path with every forward slash written as a backslash. -/
def withBackslashes (path : String) : String :=
  ⟨path.data.map (fun c => if c = '/' then '\\' else c)⟩

/-- The rules a list of lines stands for: lines taken two at a time as
pattern and replacement, a last single line as a pattern with the empty
replacement. -/
def pairLines : List String → List regexValues
  | [] => []
  | [p] => [⟨p, ""⟩]
  | p :: r :: rest => ⟨p, r⟩ :: pairLines rest

/-- A list as a Go slice built by `append` from nil: nil while empty. -/
def toSlice {α : Type} : List α → Option (List α)
  | [] => none
  | x :: xs => some (x :: xs)

/-- The text extractor on one document: parse, then the texts of the body
selections in order, concatenated. -/
def extract (lib : Lib) (htmlContent : String) : Except Abort String :=
  match lib.NewDocumentFromReader htmlContent with
  | .error err => .error (.fatal err)
  | .ok doc => .ok (String.join (lib.FindBodyText doc))

/-- Rewrite then extract: what one file's content contributes to the
output. -/
def rewriteExtract (lib : Lib) (regexes : Option (List regexValues)) (htmlCon : String) :
    Except Abort String :=
  match readHTMLFiles.rewrite lib regexes htmlCon with
  | .error a => .error a
  | .ok htmlContent => extract lib htmlContent

/-- Read, rewrite, extract, the read error being fatal: what one path
contributes to the output in `main.go`. -/
def convertFile (lib : Lib) (src : List zipFile) (regexes : Option (List regexValues))
    (file : String) : Except Abort String :=
  match readFileFromZip src file with
  | (_, some err) => .error (.fatal err)
  | (htmlCon, none) => rewriteExtract lib regexes htmlCon

/-- Read, rewrite, extract, the read error being dropped: what one path
contributes to the output in `epubToTxt.go`. -/
def convertFileLenient (lib : Lib) (src : List zipFile) (regexes : Option (List regexValues))
    (file : String) : Except Abort String :=
  rewriteExtract lib regexes (readFileFromZip src file).1

/-- The concatenation, in list order and with nothing in between, of a list
of results; the first failure in list order if there is one. -/
def concatResults : List (Except Abort String) → Except Abort String
  | [] => .ok ""
  | .error a :: _ => .error a
  | .ok t :: rest =>
    match concatResults rest with
    | .error a => .error a
    | .ok u => .ok (t ++ u)

/-- One result after another: the texts concatenated, or the first
failure. -/
def appendResults (x y : Except Abort String) : Except Abort String :=
  match x with
  | .error a => .error a
  | .ok t =>
    match y with
    | .error a => .error a
    | .ok u => .ok (t ++ u)

/-- One rule after another on a result: the rule is applied to the content
when there is one. -/
def thenApply (lib : Lib) (x : Except Abort String) (regex : regexValues) :
    Except Abort String :=
  match x with
  | .error a => .error a
  | .ok doc => applyRegex lib regex doc

/-- Literal replacement of every occurrence of a non-empty `pat`, left to
right and without overlap; `skip` counts the characters of a match still to
pass. -/
def replaceLiteral (pat repl : List Char) : Nat → List Char → List Char
  | _, [] => []
  | skip + 1, _ :: cs => replaceLiteral pat repl skip cs
  | 0, c :: cs =>
    if pat.isPrefixOf (c :: cs) then repl ++ replaceLiteral pat repl (pat.length - 1) cs
    else c :: replaceLiteral pat repl 0 cs

/-- Literal replacement of every match of `pat`; the empty pattern matches
once before every character and once at the end. -/
def replaceAllLiteral (pat repl doc : List Char) : List Char :=
  if pat = [] then repl ++ doc.flatMap (fun c => c :: repl)
  else replaceLiteral pat repl 0 doc

/-- A stand-in for the libraries, to run the definitions on concrete inputs.
A pattern is taken as literal text and so is a replacement, as package
`regexp` takes a pattern with no metacharacter and a replacement with no
dollar sign in it; the pattern `(` does not compile, as in package `regexp`
(missing closing parenthesis); a document is plain text, all of it in the
body, as `goquery` parses a text with no markup in it; the XML decoders
answer with the given descriptor and package; a converted rune slice has no
spare capacity. -/
def sampleLib (container : containerXMLParams) (opf : opfXMLParams) : Lib where
  Regexp := String
  Compile := fun p =>
    if p = "(" then .error "error parsing regexp: missing closing ): (" else .ok p
  ReplaceAll := fun re doc repl => ⟨replaceAllLiteral re.data repl.data doc.data⟩
  Document := String
  NewDocumentFromReader := fun s => .ok s
  FindBodyText := fun doc => [doc]
  unmarshalContainer := fun _ => .ok container
  unmarshalOPF := fun _ => .ok opf
  runeSlack := fun _ => 0

/-- The descriptor of the scenario: root file `OEBPS/content.opf`. -/
def sampleContainer : containerXMLParams :=
  ⟨⟨⟨"OEBPS/content.opf", "application/oebps-package+xml"⟩⟩⟩

/-- The package of the scenario: items ch1 and ch2, spine ch1, ch2. -/
def samplePackage : opfXMLParams :=
  ⟨⟨[⟨"ch1.html", "application/xhtml+xml", "ch1"⟩,
     ⟨"ch2.html", "application/xhtml+xml", "ch2"⟩]⟩, ⟨[⟨"ch1"⟩, ⟨"ch2"⟩]⟩⟩

/-- A package with an empty spine. -/
def emptySpinePackage : opfXMLParams :=
  ⟨⟨[⟨"ch1.html", "application/xhtml+xml", "ch1"⟩]⟩, ⟨[]⟩⟩

/-- An archive with the container descriptor, the package document and two
chapters of plain text. -/
def sampleArchive : List zipFile :=
  [⟨"mimetype", .ok "application/epub+zip"⟩,
   ⟨"META-INF/container.xml", .ok "container"⟩,
   ⟨"OEBPS/content.opf", .ok "package"⟩,
   ⟨"OEBPS/ch1.html", .ok "Hello "⟩,
   ⟨"OEBPS/ch2.html", .ok "World"⟩]

/-- A file system holding the sample archive as `book.epub` and a rules
file of the given lines as `rules.txt`. -/
def sampleWorld (ruleLines : List String) : World where
  OpenReader := fun name =>
    if name = "book.epub" then .ok sampleArchive else .error "no such file or directory"
  Open := fun name =>
    if name = "rules.txt" then .ok ⟨ruleLines, none⟩ else .error "no such file or directory"
  Create := fun _ _ => none

/-- The loop of `readHTMLFiles` of `main.go` with the rewrite stage (the
statement `if regexes != nil { ... }`) left out. -/
def Main.readHTMLFilesNoRewrite.loop (lib : Lib) (src : List zipFile) :
    List String → String → Except Abort String
  | [], allData => .ok allData
  | file :: rest, allData =>
    match readFileFromZip src file with
    | (_, some err) => .error (.fatal err)
    | (htmlCon, none) =>
      match readHTMLFiles.extractOnto lib allData htmlCon with
      | .error a => .error a
      | .ok allData' => Main.readHTMLFilesNoRewrite.loop lib src rest allData'

/-- `readHTMLFiles` of `main.go` with the rewrite stage left out. -/
def Main.readHTMLFilesNoRewrite (lib : Lib) (src : List zipFile) (fileList : List String) :
    Except Abort String :=
  Main.readHTMLFilesNoRewrite.loop lib src fileList ""

/-- The loop of `readHTMLFiles` of `epubToTxt.go` with the rewrite stage
left out. -/
def EpubToTxt.readHTMLFilesNoRewrite.loop (lib : Lib) (src : List zipFile) :
    List String → String → Except Abort String
  | [], allData => .ok allData
  | file :: rest, allData =>
    match readFileFromZip src file with
    | (htmlCon, _) =>
      match readHTMLFiles.extractOnto lib allData htmlCon with
      | .error a => .error a
      | .ok allData' => EpubToTxt.readHTMLFilesNoRewrite.loop lib src rest allData'

/-- `readHTMLFiles` of `epubToTxt.go` with the rewrite stage left out. -/
def EpubToTxt.readHTMLFilesNoRewrite (lib : Lib) (src : List zipFile)
    (fileList : List String) : Except Abort String :=
  EpubToTxt.readHTMLFilesNoRewrite.loop lib src fileList ""

/-- The last element of a path that does not end in a separator: what
follows its last separator. -/
def lastElement (path : List Char) : List Char :=
  (path.reverse.takeWhile (· != filepath.Separator)).reverse

/-- The test that picks out the entries that either of two queries of the
same forward-slash form can match: the stored name is `p`, or `q`, or the
forward-slash form of `p`. -/
def namedLike (p q : String) (f : zipFile) : Bool :=
  decide (f.Name = p ∨ f.Name = q ∨ f.Name = replaceBackslash p)

/-! # Theorems -/

theorem getHTMLFileList.inner_eq (opfFileDir : String) (idref : itemRef)
    (items : List manifestItem) (fileList : List String) :
    getHTMLFileList.inner opfFileDir idref items fileList
      = fileList ++ (resolveIdref items opfFileDir idref).toList := by
  induction items with
  | nil => simp [getHTMLFileList.inner, resolveIdref]
  | cons item rest ih =>
    by_cases h : item.ID = idref.Idref
    · simp [getHTMLFileList.inner, resolveIdref, h]
    · simpa [getHTMLFileList.inner, resolveIdref, h] using ih

theorem getHTMLFileList.outer_eq (opfData : opfXMLParams) (opfFileDir : String)
    (spine : List itemRef) (fileList : List String) :
    getHTMLFileList.outer opfData opfFileDir spine fileList
      = fileList ++ spine.filterMap (resolveIdref opfData.Manifest.Items opfFileDir) := by
  induction spine generalizing fileList with
  | nil => simp [getHTMLFileList.outer]
  | cons idref rest ih =>
    rw [getHTMLFileList.outer, ih, getHTMLFileList.inner_eq]
    cases h : resolveIdref opfData.Manifest.Items opfFileDir idref <;>
      simp [List.filterMap_cons, h]

theorem getHTMLFileList_eq_filterMap (opfData : opfXMLParams) (opfFileDir : String) :
    getHTMLFileList opfData opfFileDir
      = opfData.Spine.ItemRefs.filterMap (resolveIdref opfData.Manifest.Items opfFileDir) := by
  simp [getHTMLFileList, getHTMLFileList.outer_eq]

theorem resolveIdref_isSome (items : List manifestItem) (opfFileDir : String)
    (idref : itemRef) :
    (resolveIdref items opfFileDir idref).isSome = true ↔
      ∃ item ∈ items, item.ID = idref.Idref := by
  simp [resolveIdref]

/-- C1.  `getHTMLFileList` walks the spine in order; each itemref contributes
the join of the package directory with the href of the FIRST manifest item
whose ID equals the idref, and nothing when there is no such item.  On the
package of the scenario (root file `OEBPS/content.opf`, items ch1 and ch2,
spine ch1, ch2) the result is `OEBPS/ch1.html`, `OEBPS/ch2.html`. -/
theorem C1_getHTMLFileList_first_match_in_spine_order :
    (∀ (opfData : opfXMLParams) (opfFileDir : String),
      getHTMLFileList opfData opfFileDir
        = opfData.Spine.ItemRefs.filterMap (fun idref =>
            (opfData.Manifest.Items.find? (fun item => decide (item.ID = idref.Idref))).map
              (fun item => filepath.Join [opfFileDir, item.Href])))
    ∧ (∀ (manifest : opfManifest) (spine₁ spine₂ : List itemRef) (opfFileDir : String),
      getHTMLFileList ⟨manifest, ⟨spine₁ ++ spine₂⟩⟩ opfFileDir
        = getHTMLFileList ⟨manifest, ⟨spine₁⟩⟩ opfFileDir
          ++ getHTMLFileList ⟨manifest, ⟨spine₂⟩⟩ opfFileDir)
    ∧ filepath.Dir (filepath.Join ["OEBPS/content.opf"]) = "OEBPS"
    ∧ getHTMLFileList
        ⟨⟨[⟨"ch1.html", "application/xhtml+xml", "ch1"⟩,
           ⟨"ch2.html", "application/xhtml+xml", "ch2"⟩]⟩, ⟨[⟨"ch1"⟩, ⟨"ch2"⟩]⟩⟩
        (filepath.Dir (filepath.Join ["OEBPS/content.opf"]))
      = ["OEBPS/ch1.html", "OEBPS/ch2.html"] := by
  refine ⟨?_, ?_, by decide, by decide⟩
  · intro opfData opfFileDir
    exact getHTMLFileList_eq_filterMap opfData opfFileDir
  · intro manifest spine₁ spine₂ opfFileDir
    simp [getHTMLFileList_eq_filterMap, List.filterMap_append]

/-- C8.  `getHTMLFileList` is total; the number of paths it returns is the
number of spine itemrefs whose idref is the ID of some manifest item, which is
at most the length of the spine and equal to it exactly when every idref
matches; every returned path is the join of the directory with the href of a
manifest item whose ID is an idref of the spine; and an itemref matching no
manifest item can be removed from the spine without changing the result. -/
theorem C8_getHTMLFileList_skips_unmatched_idrefs (opfData : opfXMLParams)
    (opfFileDir : String) :
    (getHTMLFileList opfData opfFileDir).length
        = opfData.Spine.ItemRefs.countP (fun idref =>
            opfData.Manifest.Items.any (fun item => decide (item.ID = idref.Idref)))
    ∧ (getHTMLFileList opfData opfFileDir).length ≤ opfData.Spine.ItemRefs.length
    ∧ ((getHTMLFileList opfData opfFileDir).length = opfData.Spine.ItemRefs.length ↔
        ∀ idref ∈ opfData.Spine.ItemRefs, ∃ item ∈ opfData.Manifest.Items,
          item.ID = idref.Idref)
    ∧ (∀ p ∈ getHTMLFileList opfData opfFileDir,
        ∃ item ∈ opfData.Manifest.Items, ∃ idref ∈ opfData.Spine.ItemRefs,
          item.ID = idref.Idref ∧ p = filepath.Join [opfFileDir, item.Href])
    ∧ (∀ (before after : List itemRef) (idref : itemRef),
        (∀ item ∈ opfData.Manifest.Items, item.ID ≠ idref.Idref) →
        getHTMLFileList ⟨opfData.Manifest, ⟨before ++ idref :: after⟩⟩ opfFileDir
          = getHTMLFileList ⟨opfData.Manifest, ⟨before ++ after⟩⟩ opfFileDir) := by
  have hlen : (getHTMLFileList opfData opfFileDir).length
        = opfData.Spine.ItemRefs.countP (fun idref =>
            opfData.Manifest.Items.any (fun item => decide (item.ID = idref.Idref))) := by
    rw [getHTMLFileList_eq_filterMap]
    induction opfData.Spine.ItemRefs with
    | nil => simp
    | cons idref rest ih =>
      by_cases h : ∃ item ∈ opfData.Manifest.Items, item.ID = idref.Idref
      · have hs := (resolveIdref_isSome opfData.Manifest.Items opfFileDir idref).2 h
        obtain ⟨p, hp⟩ := Option.isSome_iff_exists.1 hs
        have hany : (opfData.Manifest.Items.any
            (fun item => decide (item.ID = idref.Idref))) = true := by
          simpa using h
        simp [List.filterMap_cons, hp, List.countP_cons, hany, ih]
      · have hs : resolveIdref opfData.Manifest.Items opfFileDir idref = none := by
          cases hr : resolveIdref opfData.Manifest.Items opfFileDir idref with
          | none => rfl
          | some p =>
            exact absurd ((resolveIdref_isSome opfData.Manifest.Items opfFileDir idref).1
              (by simp [hr])) h
        have hany : (opfData.Manifest.Items.any
            (fun item => decide (item.ID = idref.Idref))) = false := by
          simpa using h
        simp [List.filterMap_cons, hs, List.countP_cons, hany, ih]
  refine ⟨hlen, ?_, ?_, ?_, ?_⟩
  · rw [hlen]; exact List.countP_le_length _
  · rw [hlen, List.countP_eq_length]
    simp
  · intro p hp
    rw [getHTMLFileList_eq_filterMap, List.mem_filterMap] at hp
    obtain ⟨idref, hmem, hres⟩ := hp
    unfold resolveIdref at hres
    rw [Option.map_eq_some'] at hres
    obtain ⟨item, hfind, hjoin⟩ := hres
    refine ⟨item, List.mem_of_find?_eq_some hfind, idref, hmem, ?_, hjoin.symm⟩
    simpa using List.find?_some hfind
  · intro before after idref hno
    have hs : resolveIdref opfData.Manifest.Items opfFileDir idref = none := by
      cases hr : resolveIdref opfData.Manifest.Items opfFileDir idref with
      | none => rfl
      | some p =>
        obtain ⟨item, hmem, hid⟩ :=
          (resolveIdref_isSome opfData.Manifest.Items opfFileDir idref).1 (by simp [hr])
        exact absurd hid (hno item hmem)
    simp [getHTMLFileList_eq_filterMap, List.filterMap_append, List.filterMap_cons, hs]

/-! ## The archive accessor: `readFileFromZip` -/

theorem readFileFromZip_loop_eq (path : String) (src : List zipFile) :
    readFileFromZip.loop path (replaceBackslash path) src
      = match src.find? (nameMatches path) with
        | none => ("", some "no such file")
        | some f => openEntry f := by
  induction src with
  | nil => simp [readFileFromZip.loop]
  | cons f rest ih =>
    by_cases h : f.Name = path ∨ f.Name = replaceBackslash path
    · simp [readFileFromZip.loop, nameMatches, h, openEntry]
    · simp [readFileFromZip.loop, nameMatches, h, ih]

theorem readFileFromZip_eq (src : List zipFile) (path : String) :
    readFileFromZip src path
      = match src.find? (nameMatches path) with
        | none => ("", some "no such file")
        | some f => openEntry f := by
  simp [readFileFromZip, readFileFromZip_loop_eq]

theorem replaceBackslash_withBackslashes (path : String) :
    replaceBackslash (withBackslashes path) = replaceBackslash path := by
  simp only [replaceBackslash, withBackslashes, List.map_map]
  congr 1
  apply List.map_congr_left
  intro c _
  by_cases h1 : c = '/'
  · subst h1; decide
  · by_cases h2 : c = '\\'
    · subst h2; decide
    · simp [h1, h2]

theorem replaceBackslash_of_not_mem (path : String) (h : '\\' ∉ path.data) :
    replaceBackslash path = path := by
  have : path.data.map (fun c => if c = '\\' then '/' else c) = path.data := by
    conv_rhs => rw [← List.map_id path.data]
    apply List.map_congr_left
    intro c hc
    have : c ≠ '\\' := fun e => h (e ▸ hc)
    simp [this]
  simp [replaceBackslash, this]

theorem not_mem_replaceBackslash (path : String) : '\\' ∉ (replaceBackslash path).data := by
  simp only [replaceBackslash, List.mem_map, not_exists, not_and]
  intro c _
  by_cases h : c = '\\'
  · simp [h]
  · simp [h]

theorem nameMatches_of_backslash (path : String) (f : zipFile)
    (hf : '\\' ∈ f.Name.data) :
    (f.Name = path ∨ f.Name = replaceBackslash path) ↔ f.Name = path := by
  constructor
  · rintro (h | h)
    · exact h
    · exact absurd (h ▸ hf) (not_mem_replaceBackslash path)
  · exact Or.inl

theorem nameMatches_eq_raw_or_slash (path : String) (f : zipFile) :
    nameMatches path f
      = decide (f.Name = path ∨ ('\\' ∉ f.Name.data ∧ f.Name = replaceBackslash path)) := by
  have hiff : (f.Name = path ∨ f.Name = replaceBackslash path)
      ↔ (f.Name = path ∨ ('\\' ∉ f.Name.data ∧ f.Name = replaceBackslash path)) := by
    constructor
    · rintro (h | h)
      · exact Or.inl h
      · exact Or.inr ⟨h ▸ not_mem_replaceBackslash path, h⟩
    · rintro (h | ⟨_, h⟩)
      · exact Or.inl h
      · exact Or.inr h
  simp only [nameMatches, hiff]

/-- When the first entry that either query can match bears their common
forward-slash form, both queries select the same entry. -/
theorem find?_nameMatches_of_first (src : List zipFile) (p q : String)
    (hpq : replaceBackslash p = replaceBackslash q)
    (hfirst : ∀ f, src.find? (namedLike p q) = some f → f.Name = replaceBackslash p) :
    src.find? (nameMatches p) = src.find? (nameMatches q) := by
  induction src with
  | nil => rfl
  | cons f rest ih =>
    by_cases hs : f.Name = replaceBackslash p
    · have h1 : nameMatches p f = true := by simp [nameMatches, hs]
      have h2 : nameMatches q f = true := by simp [nameMatches, hs, hpq]
      simp [List.find?_cons, h1, h2]
    · have hn : namedLike p q f = false := by
        cases hc : namedLike p q f with
        | false => rfl
        | true => exact absurd (hfirst f (by simp [List.find?_cons, hc])) hs
      have hne : f.Name ≠ p ∧ f.Name ≠ q := by
        simp only [namedLike, decide_eq_false_iff_not, not_or] at hn
        exact ⟨hn.1, hn.2.1⟩
      have h1 : nameMatches p f = false := by simp [nameMatches, hne.1, hs]
      have h2 : nameMatches q f = false := by
        have hs' : f.Name ≠ replaceBackslash q := hpq ▸ hs
        simp [nameMatches, hne.2, hs']
      simp only [List.find?_cons, h1, h2]
      exact ih (fun g hg => hfirst g (by simpa [List.find?_cons, hn] using hg))

/-- Unless the two queries are equal, they select the same entry only when
the first entry that either can match bears their common forward-slash
form. -/
theorem first_of_find?_nameMatches (src : List zipFile) (p q : String)
    (hpq : replaceBackslash p = replaceBackslash q) (hne : p ≠ q)
    (hfind : src.find? (nameMatches p) = src.find? (nameMatches q)) :
    ∀ f, src.find? (namedLike p q) = some f → f.Name = replaceBackslash p := by
  induction src with
  | nil => intro f h; simp at h
  | cons g rest ih =>
    intro f h
    cases hc : namedLike p q g with
    | false =>
      have hg : g.Name ≠ p ∧ g.Name ≠ q ∧ g.Name ≠ replaceBackslash p := by
        simpa [namedLike, not_or] using hc
      have h1 : nameMatches p g = false := by simp [nameMatches, hg.1, hg.2.2]
      have h2 : nameMatches q g = false := by
        have hs' : g.Name ≠ replaceBackslash q := hpq ▸ hg.2.2
        simp [nameMatches, hg.2.1, hs']
      simp only [List.find?_cons, h1, h2] at hfind
      simp only [List.find?_cons, hc] at h
      exact ih hfind f h
    | true =>
      simp only [List.find?_cons, hc, Option.some.injEq] at h
      subst h
      by_contra hs
      have hs' : g.Name ≠ replaceBackslash q := hpq ▸ hs
      have hor : g.Name = p ∨ g.Name = q := by
        have : g.Name = p ∨ g.Name = q ∨ g.Name = replaceBackslash p := by
          simpa [namedLike] using hc
        rcases this with h | h | h
        · exact Or.inl h
        · exact Or.inr h
        · exact absurd h hs
      rcases hor with hp | hq
      · have h1 : nameMatches p g = true := by simp [nameMatches, hp]
        have h2 : nameMatches q g = false := by
          have : g.Name ≠ q := fun e => hne (hp.symm.trans e)
          simp [nameMatches, this, hs']
        simp only [List.find?_cons, h1, h2] at hfind
        have := List.find?_some hfind.symm
        rw [h2] at this
        cases this
      · have h2 : nameMatches q g = true := by simp [nameMatches, hq]
        have h1 : nameMatches p g = false := by
          have : g.Name ≠ p := fun e => hne (e.symm.trans hq)
          simp [nameMatches, this, hs]
        simp only [List.find?_cons, h1, h2] at hfind
        have := List.find?_some hfind
        rw [h1] at this
        cases this

/-- When no entry named like one of the two queries holds a backslash, the
first entry that either can match bears their common forward-slash form. -/
theorem first_of_no_backslash (src : List zipFile) (p q : String)
    (hpq : replaceBackslash p = replaceBackslash q)
    (hsrc : ∀ f ∈ src, (f.Name = p ∨ f.Name = q) → '\\' ∉ f.Name.data) :
    ∀ f, src.find? (namedLike p q) = some f → f.Name = replaceBackslash p := by
  intro f hf
  have hmem := List.mem_of_find?_eq_some hf
  have hlike : f.Name = p ∨ f.Name = q ∨ f.Name = replaceBackslash p := by
    simpa [namedLike] using List.find?_some hf
  rcases hlike with h | h | h
  · have := hsrc f hmem (Or.inl h)
    rw [h] at this
    rw [h, replaceBackslash_of_not_mem p this]
  · have := hsrc f hmem (Or.inr h)
    rw [h] at this
    rw [h, hpq, replaceBackslash_of_not_mem q this]
  · exact h

theorem readFileFromZip_congr_of_first (src : List zipFile) (p q : String)
    (hpq : replaceBackslash p = replaceBackslash q)
    (hfirst : ∀ f, src.find? (namedLike p q) = some f → f.Name = replaceBackslash p) :
    readFileFromZip src p = readFileFromZip src q := by
  rw [readFileFromZip_eq, readFileFromZip_eq, find?_nameMatches_of_first src p q hpq hfirst]

theorem readFileFromZip_withBackslashes_of_first (src : List zipFile) (f : zipFile)
    (buf : String) (before after : List zipFile) (hsplit : src = before ++ f :: after)
    (hf : '\\' ∉ f.Name.data)
    (hbefore : ∀ g ∈ before, g.Name ≠ f.Name ∧ g.Name ≠ withBackslashes f.Name)
    (hopen : f.Open = .ok buf) :
    readFileFromZip src (withBackslashes f.Name) = (buf, none) := by
  have hslash : replaceBackslash (withBackslashes f.Name) = f.Name := by
    rw [replaceBackslash_withBackslashes, replaceBackslash_of_not_mem _ hf]
  have hfind : src.find? (nameMatches (withBackslashes f.Name)) = some f := by
    rw [hsplit, List.find?_append]
    have hb : before.find? (nameMatches (withBackslashes f.Name)) = none := by
      rw [List.find?_eq_none]
      intro g hg
      have := hbefore g hg
      simp [nameMatches, hslash, this.1, this.2]
    simp [hb, nameMatches, hslash]
  rw [readFileFromZip_eq, hfind]
  simp [openEntry, hopen]

/-- C10.  `readFileFromZip` returns what opening the FIRST entry, in archive
order, whose stored name equals the query or the query with every backslash
replaced by a forward slash gives: its bytes and no error when it opens.
When the first such entry opens, the error `no such file` is returned exactly
when no entry has such a name.  The stored names are compared as they are:
an entry stored with a backslash is not found by the forward-slash form of
its name. -/
theorem C10_readFileFromZip_first_raw_match :
    (∀ (src : List zipFile) (path : String),
      readFileFromZip src path
        = match src.find? (fun f => decide (f.Name = path ∨ f.Name = replaceBackslash path)) with
          | none => ("", some "no such file")
          | some f =>
            match f.Open with
            | .error err => ("", some err)
            | .ok buf => (buf, none))
    ∧ (∀ (src : List zipFile) (path : String) (f : zipFile) (buf : String),
        src.find? (fun f => decide (f.Name = path ∨ f.Name = replaceBackslash path)) = some f →
        f.Open = .ok buf → readFileFromZip src path = (buf, none))
    ∧ (∀ (src : List zipFile) (path : String),
        (∀ f, src.find? (fun f => decide (f.Name = path ∨ f.Name = replaceBackslash path))
            = some f → ∃ buf, f.Open = .ok buf) →
        ((readFileFromZip src path).2 = some "no such file" ↔
          ∀ f ∈ src, ¬ (f.Name = path ∨ f.Name = replaceBackslash path)))
    ∧ (∀ (src : List zipFile) (path : String),
        (∀ f ∈ src, ¬ (f.Name = path ∨ f.Name = replaceBackslash path)) →
        readFileFromZip src path = ("", some "no such file"))
    ∧ (∀ (path : String), (replaceBackslash path).data
        = path.data.map (fun c => if c = '\\' then '/' else c))
    ∧ (∀ buf : String, readFileFromZip [⟨"OEBPS\\ch1.html", .ok buf⟩] "OEBPS/ch1.html"
        = ("", some "no such file")) := by
  have key : ∀ (src : List zipFile) (path : String),
      readFileFromZip src path
        = match src.find? (fun f => decide (f.Name = path ∨ f.Name = replaceBackslash path)) with
          | none => ("", some "no such file")
          | some f =>
            match f.Open with
            | .error err => ("", some err)
            | .ok buf => (buf, none) := by
    intro src path
    exact readFileFromZip_eq src path
  refine ⟨key, ?_, ?_, ?_, fun _ => rfl, ?_⟩
  · intro src path f buf hfind hopen
    rw [key, hfind]
    simp [hopen]
  · intro src path hopen
    rw [key]
    cases hfind : src.find? (fun f => decide (f.Name = path ∨ f.Name = replaceBackslash path)) with
    | none =>
      simp only [true_iff]
      intro f hf
      simpa using List.find?_eq_none.1 hfind f hf
    | some f =>
      obtain ⟨buf, hbuf⟩ := hopen f hfind
      simp only [hbuf]
      constructor
      · intro h; simp at h
      · intro h
        have hm := List.find?_some hfind
        exact absurd (by simpa using hm) (h f (List.mem_of_find?_eq_some hfind))
  · intro src path hno
    rw [key]
    have : src.find? (fun f => decide (f.Name = path ∨ f.Name = replaceBackslash path)) = none := by
      rw [List.find?_eq_none]
      intro f hf
      simpa using hno f hf
    rw [this]
  · intro buf
    rw [key]
    have : ("OEBPS\\ch1.html" : String) ≠ "OEBPS/ch1.html" := by decide
    have h2 : replaceBackslash "OEBPS/ch1.html" = "OEBPS/ch1.html" := by decide
    simp [h2, this]

/-- C4, counterexample.  The entry stored as `OEBPS\ch1.html` is found by
the query `OEBPS\ch1.html` and not by `OEBPS/ch1.html`, the same path with
the separator written the other way. -/
theorem C4_counterexample_backslash_entry_not_found_by_slash_query :
    withBackslashes "OEBPS/ch1.html" = "OEBPS\\ch1.html"
    ∧ replaceBackslash "OEBPS\\ch1.html" = "OEBPS/ch1.html"
    ∧ readFileFromZip [⟨"OEBPS\\ch1.html", .ok "<html></html>"⟩] "OEBPS\\ch1.html"
        = ("<html></html>", none)
    ∧ readFileFromZip [⟨"OEBPS\\ch1.html", .ok "<html></html>"⟩] "OEBPS/ch1.html"
        = ("", some "no such file") := by
  decide

/-- C4, as amended.  Two queries `p` and `q` that differ only in separator
style (they have the same forward-slash form) give the same result whenever
the first stored entry named `p`, `q` or that forward-slash form, if there is
one, bears the forward-slash form; that is so whenever no stored entry named
`p` or `q` holds a backslash, and all the more on an archive none of whose
stored names holds a backslash, where the backslash form and the
forward-slash form of a query give what the query gives.  Unless `p = q` the
condition is also necessary for the two queries to select the same entry.
An entry stored with forward slashes, first of its name in either form, is
found by the backslash form of its name.  An entry whose stored name holds a
backslash is matched only by a query equal to that name: an entry is matched
when its name is the query, or holds no backslash and is the forward-slash
form of the query. -/
theorem C4_readFileFromZip_separator_style_of_query (src : List zipFile) (p q : String)
    (hpq : replaceBackslash p = replaceBackslash q)
    (hfirst : ∀ f, src.find? (fun f =>
        decide (f.Name = p ∨ f.Name = q ∨ f.Name = replaceBackslash p)) = some f →
      f.Name = replaceBackslash p) :
    readFileFromZip src p = readFileFromZip src q
    ∧ (∀ src' : List zipFile,
        (∀ f ∈ src', (f.Name = p ∨ f.Name = q) → '\\' ∉ f.Name.data) →
        readFileFromZip src' p = readFileFromZip src' q)
    ∧ (∀ src' : List zipFile, (∀ f ∈ src', f.Name = p → '\\' ∉ f.Name.data) →
        readFileFromZip src' (replaceBackslash p) = readFileFromZip src' p)
    ∧ (∀ src' : List zipFile, (∀ f ∈ src', '\\' ∉ f.Name.data) →
        readFileFromZip src' p = readFileFromZip src' q
        ∧ readFileFromZip src' (withBackslashes p) = readFileFromZip src' p
        ∧ readFileFromZip src' (replaceBackslash p) = readFileFromZip src' p
        ∧ (∀ (f : zipFile) (buf : String) (before after : List zipFile),
            src' = before ++ f :: after → (∀ g ∈ before, g.Name ≠ f.Name) →
            f.Open = .ok buf →
            readFileFromZip src' (withBackslashes f.Name) = (buf, none)))
    ∧ (∀ src' : List zipFile, p ≠ q →
        src'.find? (fun f => decide (f.Name = p ∨ f.Name = replaceBackslash p))
          = src'.find? (fun f => decide (f.Name = q ∨ f.Name = replaceBackslash q)) →
        ∀ f, src'.find? (fun f =>
            decide (f.Name = p ∨ f.Name = q ∨ f.Name = replaceBackslash p)) = some f →
          f.Name = replaceBackslash p)
    ∧ (∀ (src' : List zipFile) (f : zipFile) (buf : String) (before after : List zipFile),
        src' = before ++ f :: after → '\\' ∉ f.Name.data →
        (∀ g ∈ before, g.Name ≠ f.Name ∧ g.Name ≠ withBackslashes f.Name) →
        f.Open = .ok buf →
        readFileFromZip src' (withBackslashes f.Name) = (buf, none))
    ∧ (∀ (f : zipFile) (path : String), '\\' ∈ f.Name.data →
        ((f.Name = path ∨ f.Name = replaceBackslash path) ↔ f.Name = path))
    ∧ (∀ (src' : List zipFile) (path : String),
        readFileFromZip src' path
          = match src'.find? (fun f => decide (f.Name = path
              ∨ ('\\' ∉ f.Name.data ∧ f.Name = replaceBackslash path))) with
            | none => ("", some "no such file")
            | some f =>
              match f.Open with
              | .error err => ("", some err)
              | .ok buf => (buf, none)) := by
  have weak : ∀ (src' : List zipFile) (a b : String),
      replaceBackslash a = replaceBackslash b →
      (∀ f ∈ src', (f.Name = a ∨ f.Name = b) → '\\' ∉ f.Name.data) →
      readFileFromZip src' a = readFileFromZip src' b := by
    intro src' a b hab hsrc
    exact readFileFromZip_congr_of_first src' a b hab (first_of_no_backslash src' a b hab hsrc)
  have hslash : replaceBackslash (replaceBackslash p) = replaceBackslash p :=
    replaceBackslash_of_not_mem _ (not_mem_replaceBackslash p)
  refine ⟨readFileFromZip_congr_of_first src p q hpq hfirst, ?_, ?_, ?_, ?_, ?_, ?_, ?_⟩
  · intro src' hsrc
    exact weak src' p q hpq hsrc
  · intro src' hsrc
    apply weak src' _ _ hslash
    rintro f hf (h | h)
    · exact h ▸ not_mem_replaceBackslash p
    · exact hsrc f hf h
  · intro src' hsrc
    refine ⟨weak src' p q hpq (fun f hf _ => hsrc f hf),
      weak src' _ _ (replaceBackslash_withBackslashes p) (fun f hf _ => hsrc f hf),
      weak src' _ _ hslash (fun f hf _ => hsrc f hf), ?_⟩
    intro f buf before after hsplit hbefore hopen
    have hf : '\\' ∉ f.Name.data := hsrc f (by simp [hsplit])
    apply readFileFromZip_withBackslashes_of_first src' f buf before after hsplit hf _ hopen
    intro g hg
    refine ⟨hbefore g hg, ?_⟩
    intro hgw
    have hgn : '\\' ∉ g.Name.data := hsrc g (by simp [hsplit, hg])
    have h1 : replaceBackslash g.Name = g.Name := replaceBackslash_of_not_mem _ hgn
    have h2 : replaceBackslash g.Name = f.Name := by
      rw [hgw, replaceBackslash_withBackslashes, replaceBackslash_of_not_mem _ hf]
    exact hbefore g hg (h1.symm.trans h2)
  · intro src' hne hfind
    exact first_of_find?_nameMatches src' p q hpq hne hfind
  · intro src' f buf before after hsplit hf hbefore hopen
    exact readFileFromZip_withBackslashes_of_first src' f buf before after hsplit hf hbefore
      hopen
  · intro f path hf
    exact nameMatches_of_backslash path f hf
  · intro src' path
    rw [readFileFromZip_eq]
    have hfun : nameMatches path = fun f => decide (f.Name = path
        ∨ ('\\' ∉ f.Name.data ∧ f.Name = replaceBackslash path)) :=
      funext (nameMatches_eq_raw_or_slash path)
    rw [hfun]
    cases src'.find? (fun f => decide (f.Name = path
        ∨ ('\\' ∉ f.Name.data ∧ f.Name = replaceBackslash path))) with
    | none => rfl
    | some f => rfl

/-- C4, witness: an archive holding a cover stored with a backslash, the
chapter stored as `OEBPS/ch1.html` and, after it, an entry stored as
`OEBPS\ch1.html`; the chapter is asked for in both styles. -/
theorem C4_readFileFromZip_separator_style_of_query_witness :
    readFileFromZip
        [⟨"images\\cover.jpg", .ok "JFIF"⟩, ⟨"OEBPS/ch1.html", .ok "<html></html>"⟩,
         ⟨"OEBPS\\ch1.html", .ok "other"⟩] "OEBPS\\ch1.html"
      = readFileFromZip
        [⟨"images\\cover.jpg", .ok "JFIF"⟩, ⟨"OEBPS/ch1.html", .ok "<html></html>"⟩,
         ⟨"OEBPS\\ch1.html", .ok "other"⟩] "OEBPS/ch1.html"
    ∧ readFileFromZip
        [⟨"images\\cover.jpg", .ok "JFIF"⟩, ⟨"OEBPS/ch1.html", .ok "<html></html>"⟩,
         ⟨"OEBPS\\ch1.html", .ok "other"⟩] "OEBPS\\ch1.html"
      = ("<html></html>", none) :=
  ⟨(C4_readFileFromZip_separator_style_of_query
      [⟨"images\\cover.jpg", .ok "JFIF"⟩, ⟨"OEBPS/ch1.html", .ok "<html></html>"⟩,
       ⟨"OEBPS\\ch1.html", .ok "other"⟩] "OEBPS\\ch1.html" "OEBPS/ch1.html"
      (by decide)
      (fun f hf => by
        have h : [(⟨"images\\cover.jpg", .ok "JFIF"⟩ : zipFile),
            ⟨"OEBPS/ch1.html", .ok "<html></html>"⟩, ⟨"OEBPS\\ch1.html", .ok "other"⟩].find?
            (fun f => decide (f.Name = "OEBPS\\ch1.html" ∨ f.Name = "OEBPS/ch1.html"
              ∨ f.Name = replaceBackslash "OEBPS\\ch1.html"))
            = some ⟨"OEBPS/ch1.html", .ok "<html></html>"⟩ := by decide
        rw [h] at hf
        cases hf
        decide)).1, by decide⟩

/-! ## The rewrite-rules file: `readRegexFile` -/

theorem appendRule_toSlice (acc : List regexValues) (v : regexValues) :
    appendRule (toSlice acc) v = toSlice (acc ++ [v]) := by
  cases acc <;> simp [appendRule, toSlice]

theorem modify_length_append {α : Type} (f : α → α) (acc : List α) (x : α) :
    List.modify f acc.length (acc ++ [x]) = acc ++ [f x] := by
  induction acc with
  | nil => rfl
  | cons a rest ih => simpa [List.modify_succ_cons] using ih

theorem setReplacement_last (acc : List regexValues) (p text : String) (idx : Int)
    (hidx : idx = acc.length) :
    setReplacement (toSlice (acc ++ [⟨p, ""⟩])) idx text
      = some (toSlice (acc ++ [⟨p, text⟩])) := by
  subst hidx
  have hs : ∀ l : List regexValues, l ≠ [] → toSlice l = some l := by
    intro l hl
    cases l with
    | nil => exact absurd rfl hl
    | cons a l => rfl
  rw [hs _ (by simp), hs _ (by simp)]
  simp [setReplacement, modify_length_append]

theorem readRegexFile_loop_eq (lines : List String) :
    (∀ acc : List regexValues,
      readRegexFile.loop lines (toSlice acc) (2 * (acc.length : Int))
        = .ok (toSlice (acc ++ pairLines lines)))
    ∧ (∀ (acc : List regexValues) (p : String),
      readRegexFile.loop lines (toSlice (acc ++ [⟨p, ""⟩])) (2 * (acc.length : Int) + 1)
        = .ok (toSlice (acc ++ pairLines (p :: lines)))) := by
  induction lines with
  | nil =>
    constructor
    · intro acc; simp [readRegexFile.loop, pairLines]
    · intro acc p; simp [readRegexFile.loop, pairLines]
  | cons text rest ih =>
    constructor
    · intro acc
      have hmod : Int.tmod (2 * (acc.length : Int) + 1) 2 = 1 := by
        rw [Int.tmod_eq_emod (by omega) (by omega)]; omega
      rw [readRegexFile.loop, if_pos hmod, appendRule_toSlice]
      exact ih.2 acc text
    · intro acc p
      have hmod : ¬ Int.tmod (2 * (acc.length : Int) + 1 + 1) 2 = 1 := by
        rw [Int.tmod_eq_emod (by omega) (by omega)]; omega
      have hdiv : Int.tdiv (2 * (acc.length : Int) + 1 - 1) 2 = acc.length := by
        rw [Int.tdiv_eq_ediv (by omega) (by omega)]; omega
      rw [readRegexFile.loop, if_neg hmod, hdiv, setReplacement_last acc p text _ rfl]
      have := ih.1 (acc ++ [⟨p, text⟩])
      simp only [List.length_append, List.length_singleton, Nat.cast_add, Nat.cast_one] at this
      have hi : 2 * (acc.length : Int) + 1 + 1 = 2 * ((acc.length : Int) + 1) := by ring
      simp only [hi, this]
      simp [pairLines]

theorem length_pairLines : ∀ lines : List String,
    (pairLines lines).length = (lines.length + 1) / 2
  | [] => rfl
  | [_] => by simp [pairLines]
  | _ :: _ :: rest => by
    simp only [pairLines, List.length_cons, length_pairLines rest]
    omega

theorem getElem?_pairLines : ∀ (lines : List String) (k : Nat),
    (pairLines lines)[k]?
      = lines[2 * k]?.map (fun p => ⟨p, lines[2 * k + 1]?.getD ""⟩)
  | [], k => by simp [pairLines]
  | [p], 0 => by simp [pairLines]
  | [p], k + 1 => by
    have : 2 * (k + 1) = (2 * k + 1) + 1 := by ring
    simp [pairLines, this]
  | p :: r :: rest, 0 => by simp [pairLines]
  | p :: r :: rest, k + 1 => by
    have h1 : 2 * (k + 1) = (2 * k) + 1 + 1 := by ring
    have h2 : 2 * (k + 1) + 1 = (2 * k + 1) + 1 + 1 := by ring
    rw [h2, h1]
    simp only [pairLines, List.getElem?_cons_succ]
    exact getElem?_pairLines rest k

theorem readRegexFile_eq (w : World) (regexFile : String) (lines : List String)
    (hname : regexFile ≠ "") (hopen : w.Open regexFile = .ok ⟨lines, none⟩) :
    readRegexFile w regexFile = .ok (toSlice (pairLines lines)) := by
  have h := (readRegexFile_loop_eq lines).1 []
  simp only [List.length_nil, Nat.cast_zero, mul_zero, List.nil_append] at h
  have h0 : toSlice ([] : List regexValues) = none := rfl
  rw [h0] at h
  simp [readRegexFile, hname, hopen, h]

/-- C5.  When the rules file opens and the scanner reads the lines
`l1..ln` without error, `readRegexFile` returns (no index ever being out of
range) the slice of `ceil(n/2)` rules in file order, nil when there is no
line, whose rule `k` (from 0) has pattern `l(2k+1)` and replacement
`l(2k+2)` when that line exists and the empty string otherwise; when `n` is
odd the last rule has the empty replacement. -/
theorem C5_readRegexFile_pairs_lines (w : World) (regexFile : String) (lines : List String)
    (hname : regexFile ≠ "") (hopen : w.Open regexFile = .ok ⟨lines, none⟩) :
    ∃ rules : List regexValues,
      readRegexFile w regexFile = .ok (if lines = [] then none else some rules)
      ∧ rules.length = (lines.length + 1) / 2
      ∧ (∀ k, rules[k]?
          = lines[2 * k]?.map (fun p => ⟨p, lines[2 * k + 1]?.getD ""⟩))
      ∧ (∀ k, k < rules.length →
          rules[k]?.map (fun r => r.pattern) = lines[2 * k]?
          ∧ rules[k]?.map (fun r => r.replacement) = some (lines[2 * k + 1]?.getD ""))
      ∧ (lines.length % 2 = 1 →
          rules.getLast?.map (fun r => r.replacement) = some "") := by
  refine ⟨pairLines lines, ?_, length_pairLines lines, getElem?_pairLines lines, ?_, ?_⟩
  · rw [readRegexFile_eq w regexFile lines hname hopen]
    cases lines with
    | nil => rfl
    | cons a rest =>
      cases rest <;> simp [pairLines, toSlice]
  · intro k hk
    rw [length_pairLines] at hk
    have h2k : 2 * k < lines.length := by omega
    rw [getElem?_pairLines]
    obtain ⟨p, hp⟩ : ∃ p, lines[2 * k]? = some p :=
      ⟨lines[2 * k], List.getElem?_eq_getElem h2k⟩
    simp [hp]
  · intro hodd
    have hlen := length_pairLines lines
    have hpos : 0 < (pairLines lines).length := by omega
    rw [List.getLast?_eq_getElem?, getElem?_pairLines]
    have hk : 2 * ((pairLines lines).length - 1) = lines.length - 1 := by omega
    have hk1 : 2 * ((pairLines lines).length - 1) + 1 = lines.length := by omega
    rw [hk1, hk]
    have hnone : lines[lines.length]? = none := List.getElem?_eq_none (le_refl _)
    obtain ⟨p, hp⟩ : ∃ p, lines[lines.length - 1]? = some p :=
      ⟨lines[lines.length - 1], List.getElem?_eq_getElem (by omega)⟩
    simp [hnone, hp]

/-- C5, witness: a rules file of three lines gives two rules, the second
with the empty replacement. -/
theorem C5_readRegexFile_pairs_lines_witness :
    ∃ rules : List regexValues,
      readRegexFile ⟨fun _ => .ok [], fun _ => .ok ⟨["<br/>", "", "<hr/>"], none⟩,
          fun _ _ => none⟩ "rules.txt"
        = .ok (if (["<br/>", "", "<hr/>"] : List String) = [] then none else some rules)
      ∧ rules.length = 2 :=
  let ⟨rules, h, hlen, _⟩ := C5_readRegexFile_pairs_lines
    ⟨fun _ => .ok [], fun _ => .ok ⟨["<br/>", "", "<hr/>"], none⟩, fun _ _ => none⟩
    "rules.txt" ["<br/>", "", "<hr/>"] (by decide) rfl
  ⟨rules, h, hlen⟩

/-! ## The rewrite engine -/

theorem readHTMLFiles.rewriteLoop_append (lib : Lib) (rules₁ rules₂ : List regexValues)
    (doc : String) :
    readHTMLFiles.rewriteLoop lib (rules₁ ++ rules₂) doc
      = match readHTMLFiles.rewriteLoop lib rules₁ doc with
        | .error a => .error a
        | .ok doc' => readHTMLFiles.rewriteLoop lib rules₂ doc' := by
  induction rules₁ generalizing doc with
  | nil => simp [readHTMLFiles.rewriteLoop]
  | cons r rest ih =>
    simp only [List.cons_append, readHTMLFiles.rewriteLoop]
    cases applyRegex lib r doc with
    | error a => rfl
    | ok doc' => exact ih doc'

theorem foldl_thenApply_error (lib : Lib) (rules : List regexValues) (a : Abort) :
    rules.foldl (thenApply lib) (.error a) = .error a := by
  induction rules with
  | nil => rfl
  | cons r rest ih => simpa [List.foldl_cons, thenApply] using ih

theorem readHTMLFiles.rewriteLoop_eq_foldl (lib : Lib) (rules : List regexValues)
    (doc : String) :
    readHTMLFiles.rewriteLoop lib rules doc = rules.foldl (thenApply lib) (.ok doc) := by
  induction rules generalizing doc with
  | nil => rfl
  | cons r rest ih =>
    simp only [readHTMLFiles.rewriteLoop, List.foldl_cons, thenApply]
    cases applyRegex lib r doc with
    | error a => simp [foldl_thenApply_error]
    | ok doc' => exact ih doc'

theorem readHTMLFiles.rewriteLoop_of_compile (lib : Lib) (rules : List regexValues)
    (re : regexValues → lib.Regexp)
    (hre : ∀ r ∈ rules, lib.Compile r.pattern = .ok (re r)) (doc : String) :
    readHTMLFiles.rewriteLoop lib rules doc
      = .ok (rules.foldl (fun d r => lib.ReplaceAll (re r) d r.replacement) doc) := by
  induction rules generalizing doc with
  | nil => rfl
  | cons r rest ih =>
    have hr := hre r (List.mem_cons_self _ _)
    simp only [readHTMLFiles.rewriteLoop, applyRegex, hr, List.foldl_cons]
    exact ih (fun r' hr' => hre r' (List.mem_cons_of_mem _ hr')) _

/-! ## The aggregator: `readHTMLFiles` -/

theorem foldl_append_eq_join (texts : List String) (allData : String) :
    texts.foldl (fun b t => b ++ t) allData = allData ++ String.join texts := by
  induction texts generalizing allData with
  | nil => simp [String.join]
  | cons t rest ih =>
    have h := ih (allData ++ t)
    have h' := ih ("" ++ t)
    simp only [String.join, List.foldl_cons] at h h' ⊢
    rw [h, h', String.empty_append, String.append_assoc]

theorem readHTMLFiles.extractOnto_eq (lib : Lib) (allData htmlContent : String) :
    readHTMLFiles.extractOnto lib allData htmlContent
      = match extract lib htmlContent with
        | .error a => .error a
        | .ok t => .ok (allData ++ t) := by
  unfold readHTMLFiles.extractOnto extract
  cases lib.NewDocumentFromReader htmlContent with
  | error e => rfl
  | ok doc => simp [foldl_append_eq_join]

theorem main_readHTMLFiles_loop_eq (lib : Lib) (src : List zipFile)
    (regexes : Option (List regexValues)) (fileList : List String) (allData : String) :
    Main.readHTMLFiles.loop lib src regexes fileList allData
      = match concatResults (fileList.map (convertFile lib src regexes)) with
        | .error a => .error a
        | .ok t => .ok (allData ++ t) := by
  induction fileList generalizing allData with
  | nil => simp [Main.readHTMLFiles.loop, concatResults]
  | cons file rest ih =>
    simp only [Main.readHTMLFiles.loop, List.map_cons, convertFile, rewriteExtract]
    rcases hread : readFileFromZip src file with ⟨htmlCon, _ | err⟩
    · simp only []
      cases hrw : readHTMLFiles.rewrite lib regexes htmlCon with
      | error a => simp [concatResults]
      | ok htmlContent =>
        simp only [readHTMLFiles.extractOnto_eq]
        cases hex : extract lib htmlContent with
        | error a => simp [concatResults]
        | ok t =>
          simp only [concatResults, ih]
          cases concatResults (rest.map (convertFile lib src regexes)) with
          | error a => rfl
          | ok u => simp [String.append_assoc]
    · simp [concatResults]

theorem epubToTxt_readHTMLFiles_loop_eq (lib : Lib) (src : List zipFile)
    (regexes : Option (List regexValues)) (fileList : List String) (allData : String) :
    EpubToTxt.readHTMLFiles.loop lib src regexes fileList allData
      = match concatResults (fileList.map (convertFileLenient lib src regexes)) with
        | .error a => .error a
        | .ok t => .ok (allData ++ t) := by
  induction fileList generalizing allData with
  | nil => simp [EpubToTxt.readHTMLFiles.loop, concatResults]
  | cons file rest ih =>
    simp only [EpubToTxt.readHTMLFiles.loop, List.map_cons, convertFileLenient, rewriteExtract]
    cases hrw : readHTMLFiles.rewrite lib regexes (readFileFromZip src file).1 with
    | error a => simp [concatResults]
    | ok htmlContent =>
      simp only [readHTMLFiles.extractOnto_eq]
      cases hex : extract lib htmlContent with
      | error a => simp [concatResults]
      | ok t =>
        simp only [concatResults, ih]
        cases concatResults (rest.map (convertFileLenient lib src regexes)) with
        | error a => rfl
        | ok u => simp [String.append_assoc]

theorem main_readHTMLFiles_eq (lib : Lib) (src : List zipFile) (fileList : List String)
    (regexes : Option (List regexValues)) :
    Main.readHTMLFiles lib src fileList regexes
      = concatResults (fileList.map (convertFile lib src regexes)) := by
  rw [Main.readHTMLFiles, main_readHTMLFiles_loop_eq]
  cases concatResults (fileList.map (convertFile lib src regexes)) with
  | error a => rfl
  | ok t => simp

theorem epubToTxt_readHTMLFiles_eq (lib : Lib) (src : List zipFile) (fileList : List String)
    (regexes : Option (List regexValues)) :
    EpubToTxt.readHTMLFiles lib src fileList regexes
      = concatResults (fileList.map (convertFileLenient lib src regexes)) := by
  rw [EpubToTxt.readHTMLFiles, epubToTxt_readHTMLFiles_loop_eq]
  cases concatResults (fileList.map (convertFileLenient lib src regexes)) with
  | error a => rfl
  | ok t => simp

theorem concatResults_append (xs ys : List (Except Abort String)) :
    concatResults (xs ++ ys) = appendResults (concatResults xs) (concatResults ys) := by
  induction xs with
  | nil =>
    cases h : concatResults ys <;> simp [concatResults, appendResults, h]
  | cons x rest ih =>
    cases x with
    | error a => simp [concatResults, appendResults]
    | ok t =>
      rw [List.cons_append, concatResults, ih, concatResults]
      cases concatResults rest with
      | error a => simp [appendResults]
      | ok u =>
        cases concatResults ys with
        | error a => simp [appendResults]
        | ok v => simp [appendResults, String.append_assoc]

theorem concatResults_of_ok (paths : List String) (f : String → Except Abort String)
    (text : String → String) (h : ∀ p ∈ paths, f p = .ok (text p)) :
    concatResults (paths.map f) = .ok (String.join (paths.map text)) := by
  induction paths with
  | nil => simp [concatResults, String.join]
  | cons p rest ih =>
    have hp := h p (List.mem_cons_self _ _)
    have hrest := ih (fun q hq => h q (List.mem_cons_of_mem _ hq))
    simp only [List.map_cons, hp, concatResults, hrest]
    have hj : ∀ (t : String) (ts : List String), String.join (t :: ts) = t ++ String.join ts := by
      intro t ts
      have := foldl_append_eq_join ts ("" ++ t)
      simpa [String.join] using this
    rw [hj]

theorem convertFileLenient_eq_of_read (lib : Lib) (src : List zipFile)
    (regexes : Option (List regexValues)) (file : String)
    (h : (readFileFromZip src file).2 = none) :
    convertFileLenient lib src regexes file = convertFile lib src regexes file := by
  unfold convertFileLenient convertFile
  rcases hread : readFileFromZip src file with ⟨htmlCon, _ | err⟩
  · rfl
  · rw [hread] at h; cases h

theorem main_readHTMLFiles_loop_no_rules (lib : Lib) (src : List zipFile)
    (regexes : Option (List regexValues)) (hreg : regexes = none ∨ regexes = some [])
    (fileList : List String) (allData : String) :
    Main.readHTMLFiles.loop lib src regexes fileList allData
      = Main.readHTMLFilesNoRewrite.loop lib src fileList allData := by
  have hrw : ∀ doc, readHTMLFiles.rewrite lib regexes doc = .ok doc := by
    intro doc
    rcases hreg with h | h <;> subst h <;> rfl
  induction fileList generalizing allData with
  | nil => rfl
  | cons file rest ih =>
    simp only [Main.readHTMLFiles.loop, Main.readHTMLFilesNoRewrite.loop, hrw]
    rcases readFileFromZip src file with ⟨htmlCon, _ | err⟩
    · simp only []
      cases readHTMLFiles.extractOnto lib allData htmlCon with
      | error a => rfl
      | ok allData' => exact ih allData'
    · rfl

theorem epubToTxt_readHTMLFiles_loop_no_rules (lib : Lib) (src : List zipFile)
    (regexes : Option (List regexValues)) (hreg : regexes = none ∨ regexes = some [])
    (fileList : List String) (allData : String) :
    EpubToTxt.readHTMLFiles.loop lib src regexes fileList allData
      = EpubToTxt.readHTMLFilesNoRewrite.loop lib src fileList allData := by
  have hrw : ∀ doc, readHTMLFiles.rewrite lib regexes doc = .ok doc := by
    intro doc
    rcases hreg with h | h <;> subst h <;> rfl
  induction fileList generalizing allData with
  | nil => rfl
  | cons file rest ih =>
    simp only [EpubToTxt.readHTMLFiles.loop, EpubToTxt.readHTMLFilesNoRewrite.loop, hrw]
    cases readHTMLFiles.extractOnto lib allData (readFileFromZip src file).1 with
    | error a => rfl
    | ok allData' => exact ih allData'

/-- C6.  The rewrite stage of `readHTMLFiles` applies the rules one after
another in list order, each to the result of the one before (a rule whose
pattern does not compile ends the run there); so with rules that compile the
rewritten content is `applyRegex(rn, ... applyRegex(r1, b))`, and rewriting
with `rules1 ++ rules2` is rewriting with `rules2` the result of rewriting
with `rules1`.  With the nil or the empty rule list the stage is the
identity, and `readHTMLFiles`, in both programs, gives what it gives with the
stage left out. -/
theorem C6_rewrite_stage_is_sequential_composition (lib : Lib) :
    (∀ (rules : List regexValues) (doc : String),
      readHTMLFiles.rewrite lib (some rules) doc
        = rules.foldl
            (fun (x : Except Abort String) regex =>
              match x with
              | .error a => .error a
              | .ok d => applyRegex lib regex d)
            (.ok doc))
    ∧ (∀ (rules : List regexValues) (re : regexValues → lib.Regexp),
        (∀ r ∈ rules, lib.Compile r.pattern = .ok (re r)) →
        ∀ doc : String, readHTMLFiles.rewrite lib (some rules) doc
          = .ok (rules.foldl (fun d r => lib.ReplaceAll (re r) d r.replacement) doc))
    ∧ (∀ (rules₁ rules₂ : List regexValues) (doc : String),
        readHTMLFiles.rewrite lib (some (rules₁ ++ rules₂)) doc
          = match readHTMLFiles.rewrite lib (some rules₁) doc with
            | .error a => .error a
            | .ok doc' => readHTMLFiles.rewrite lib (some rules₂) doc')
    ∧ (∀ doc : String, readHTMLFiles.rewrite lib none doc = .ok doc
        ∧ readHTMLFiles.rewrite lib (some []) doc = .ok doc)
    ∧ (∀ (src : List zipFile) (fileList : List String),
        Main.readHTMLFiles lib src fileList none = Main.readHTMLFilesNoRewrite lib src fileList
        ∧ Main.readHTMLFiles lib src fileList (some [])
            = Main.readHTMLFilesNoRewrite lib src fileList
        ∧ EpubToTxt.readHTMLFiles lib src fileList none
            = EpubToTxt.readHTMLFilesNoRewrite lib src fileList
        ∧ EpubToTxt.readHTMLFiles lib src fileList (some [])
            = EpubToTxt.readHTMLFilesNoRewrite lib src fileList) := by
  refine ⟨?_, ?_, ?_, fun doc => ⟨rfl, rfl⟩, ?_⟩
  · intro rules doc
    exact readHTMLFiles.rewriteLoop_eq_foldl lib rules doc
  · intro rules re hre doc
    exact readHTMLFiles.rewriteLoop_of_compile lib rules re hre doc
  · intro rules₁ rules₂ doc
    exact readHTMLFiles.rewriteLoop_append lib rules₁ rules₂ doc
  · intro src fileList
    exact ⟨main_readHTMLFiles_loop_no_rules lib src none (Or.inl rfl) fileList "",
      main_readHTMLFiles_loop_no_rules lib src (some []) (Or.inr rfl) fileList "",
      epubToTxt_readHTMLFiles_loop_no_rules lib src none (Or.inl rfl) fileList "",
      epubToTxt_readHTMLFiles_loop_no_rules lib src (some []) (Or.inr rfl) fileList ""⟩

/-- C2.  When every path of the list is read without error, `readHTMLFiles`,
in both programs, gives the concatenation in list order, nothing added in
between, of `extract(rewrite(rules, read(path)))` over the paths (the first
failure of a rewrite or of a parse, if there is one); it gives that text
whenever each path yields one; on `paths1 ++ paths2` it gives the text of
`paths1` followed by the text of `paths2`; and for three paths A, B, C under
the nil or empty rule list it gives `extract(A) + extract(B) + extract(C)`. -/
theorem C2_readHTMLFiles_concatenates_in_list_order (lib : Lib) (src : List zipFile)
    (regexes : Option (List regexValues)) (paths : List String)
    (hread : ∀ p ∈ paths, (readFileFromZip src p).2 = none) :
    Main.readHTMLFiles lib src paths regexes
        = concatResults
            (paths.map (fun p => rewriteExtract lib regexes (readFileFromZip src p).1))
    ∧ EpubToTxt.readHTMLFiles lib src paths regexes
        = concatResults
            (paths.map (fun p => rewriteExtract lib regexes (readFileFromZip src p).1))
    ∧ (∀ text : String → String,
        (∀ p ∈ paths, rewriteExtract lib regexes (readFileFromZip src p).1 = .ok (text p)) →
        Main.readHTMLFiles lib src paths regexes = .ok (String.join (paths.map text))
        ∧ EpubToTxt.readHTMLFiles lib src paths regexes = .ok (String.join (paths.map text)))
    ∧ (∀ paths₁ paths₂ : List String, paths = paths₁ ++ paths₂ →
        Main.readHTMLFiles lib src paths regexes
          = appendResults (Main.readHTMLFiles lib src paths₁ regexes)
              (Main.readHTMLFiles lib src paths₂ regexes)
        ∧ EpubToTxt.readHTMLFiles lib src paths regexes
          = appendResults (EpubToTxt.readHTMLFiles lib src paths₁ regexes)
              (EpubToTxt.readHTMLFiles lib src paths₂ regexes))
    ∧ (∀ (A B C tA tB tC : String), paths = [A, B, C] →
        regexes = none ∨ regexes = some [] →
        extract lib (readFileFromZip src A).1 = .ok tA →
        extract lib (readFileFromZip src B).1 = .ok tB →
        extract lib (readFileFromZip src C).1 = .ok tC →
        Main.readHTMLFiles lib src paths regexes = .ok (tA ++ tB ++ tC)
        ∧ EpubToTxt.readHTMLFiles lib src paths regexes = .ok (tA ++ tB ++ tC)) := by
  have hmain : Main.readHTMLFiles lib src paths regexes
        = concatResults
            (paths.map (fun p => rewriteExtract lib regexes (readFileFromZip src p).1)) := by
    rw [main_readHTMLFiles_eq]
    congr 1
    apply List.map_congr_left
    intro p hp
    exact (convertFileLenient_eq_of_read lib src regexes p (hread p hp)).symm
  have hepub : EpubToTxt.readHTMLFiles lib src paths regexes
        = concatResults
            (paths.map (fun p => rewriteExtract lib regexes (readFileFromZip src p).1)) := by
    rw [epubToTxt_readHTMLFiles_eq]
    rfl
  have htext : ∀ text : String → String,
      (∀ p ∈ paths, rewriteExtract lib regexes (readFileFromZip src p).1 = .ok (text p)) →
      Main.readHTMLFiles lib src paths regexes = .ok (String.join (paths.map text))
      ∧ EpubToTxt.readHTMLFiles lib src paths regexes = .ok (String.join (paths.map text)) := by
    intro text h
    rw [hmain, hepub, concatResults_of_ok paths _ text h]
    exact ⟨rfl, rfl⟩
  refine ⟨hmain, hepub, htext, ?_, ?_⟩
  · intro paths₁ paths₂ hsplit
    subst hsplit
    constructor
    · simp only [main_readHTMLFiles_eq, List.map_append, concatResults_append]
    · simp only [epubToTxt_readHTMLFiles_eq, List.map_append, concatResults_append]
  · intro A B C tA tB tC hp hreg hA hB hC
    have hrw : ∀ doc, readHTMLFiles.rewrite lib regexes doc = .ok doc := by
      intro doc
      rcases hreg with h | h <;> subst h <;> rfl
    have h := htext (fun p => if p = A then tA else if p = B then tB else tC) (by
      intro p hpm
      rw [hp] at hpm
      simp only [rewriteExtract, hrw]
      by_cases h1 : p = A
      · subst h1; simpa using hA
      · by_cases h2 : p = B
        · subst h2; simpa [h1] using hB
        · have h3 : p = C := by simpa [h1, h2] using hpm
          subst h3; simpa [h1, h2] using hC)
    rw [h.1, h.2]
    subst hp
    by_cases hBA : B = A
    · subst hBA
      have htAB : tA = tB := by rw [hA] at hB; cases hB; rfl
      by_cases hCA : C = B
      · subst hCA
        have htAC : tB = tC := by rw [hB] at hC; cases hC; rfl
        subst htAB htAC
        simp [String.join, String.append_assoc]
      · subst htAB
        simp [String.join, hCA, String.append_assoc]
    · by_cases hCA : C = A
      · subst hCA
        have htAC : tA = tC := by rw [hA] at hC; cases hC; rfl
        subst htAC
        simp [String.join, hBA, String.append_assoc]
      · by_cases hCB : C = B
        · subst hCB
          have htBC : tB = tC := by rw [hB] at hC; cases hC; rfl
          subst htBC
          simp [String.join, hBA, String.append_assoc]
        · simp [String.join, hBA, hCA, hCB, String.append_assoc]

/-- C2, witness: the two chapters of the sample archive under one rule. -/
theorem C2_readHTMLFiles_concatenates_in_list_order_witness :
    Main.readHTMLFiles (sampleLib sampleContainer samplePackage) sampleArchive
        ["OEBPS/ch1.html", "OEBPS/ch2.html"] (some [⟨"World", "there"⟩])
      = concatResults
          (["OEBPS/ch1.html", "OEBPS/ch2.html"].map (fun p =>
            rewriteExtract (sampleLib sampleContainer samplePackage)
              (some [⟨"World", "there"⟩]) (readFileFromZip sampleArchive p).1))
    ∧ Main.readHTMLFiles (sampleLib sampleContainer samplePackage) sampleArchive
        ["OEBPS/ch1.html", "OEBPS/ch2.html"] (some [⟨"World", "there"⟩])
      = .ok "Hello there" :=
  ⟨(C2_readHTMLFiles_concatenates_in_list_order (sampleLib sampleContainer samplePackage)
      sampleArchive (some [⟨"World", "there"⟩]) ["OEBPS/ch1.html", "OEBPS/ch2.html"]
      (by decide)).1, by decide⟩

theorem readHTMLFiles.rewriteLoop_first_bad (lib : Lib) (good : List regexValues)
    (r : regexValues) (tail : List regexValues) (e : String)
    (hgood : ∀ g ∈ good, ∃ re, lib.Compile g.pattern = .ok re)
    (hr : lib.Compile r.pattern = .error e) (doc : String) :
    readHTMLFiles.rewriteLoop lib (good ++ r :: tail) doc = .error (.panic e) := by
  induction good generalizing doc with
  | nil => simp [readHTMLFiles.rewriteLoop, applyRegex, hr]
  | cons g rest ih =>
    obtain ⟨re, hre⟩ := hgood g (List.mem_cons_self _ _)
    simp only [List.cons_append, readHTMLFiles.rewriteLoop, applyRegex, hre]
    exact ih (fun g' hg' => hgood g' (List.mem_cons_of_mem _ hg')) _

theorem exists_first_bad (lib : Lib) (rules : List regexValues)
    (hbad : ∃ r ∈ rules, ∃ e, lib.Compile r.pattern = .error e) :
    ∃ (good : List regexValues) (r : regexValues) (tail : List regexValues) (e : String),
      rules = good ++ r :: tail
      ∧ (∀ g ∈ good, ∃ re, lib.Compile g.pattern = .ok re)
      ∧ lib.Compile r.pattern = .error e := by
  induction rules with
  | nil => simp at hbad
  | cons r rest ih =>
    cases hc : lib.Compile r.pattern with
    | error e => exact ⟨[], r, rest, e, rfl, by simp, hc⟩
    | ok re =>
      have hbad' : ∃ r' ∈ rest, ∃ e, lib.Compile r'.pattern = .error e := by
        obtain ⟨r', hr', e, he⟩ := hbad
        rcases List.mem_cons.1 hr' with h | h
        · subst h; rw [hc] at he; cases he
        · exact ⟨r', h, e, he⟩
      obtain ⟨good, r', tail, e, hsplit, hgood, he⟩ := ih hbad'
      refine ⟨r :: good, r', tail, e, by simp [hsplit], ?_, he⟩
      intro g hg
      rcases List.mem_cons.1 hg with h | h
      · subst h; exact ⟨re, hc⟩
      · exact hgood g h

theorem concatResults_first_error (before : List (Except Abort String))
    (a : Abort) (after : List (Except Abort String))
    (hbefore : ∀ x ∈ before, ∃ t, x = .ok t) :
    concatResults (before ++ .error a :: after) = .error a := by
  induction before with
  | nil => rfl
  | cons x rest ih =>
    obtain ⟨t, ht⟩ := hbefore x (List.mem_cons_self _ _)
    subst ht
    rw [List.cons_append, concatResults, ih (fun y hy => hbefore y (List.mem_cons_of_mem _ hy))]

theorem concatResults_error_of_mem (xs : List (Except Abort String))
    (h : ∃ x ∈ xs, ∃ a, x = .error a) : ∃ a, concatResults xs = .error a := by
  induction xs with
  | nil => simp at h
  | cons x rest ih =>
    cases x with
    | error a => exact ⟨a, rfl⟩
    | ok t =>
      have h' : ∃ x ∈ rest, ∃ a, x = .error a := by
        obtain ⟨y, hy, a, ha⟩ := h
        rcases List.mem_cons.1 hy with e | e
        · subst e; cases ha
        · exact ⟨y, e, a, ha⟩
      obtain ⟨a, ha⟩ := ih h'
      exact ⟨a, by rw [concatResults, ha]⟩

/-- C3.  In `main.go` a path that cannot be read ends `readHTMLFiles` with
the read error and no text: with that very error when the paths before it
were converted, and with some failure in any case.  In `epubToTxt.go` the
read error is never looked at: the unreadable path is converted as the empty
document and the remaining paths follow.  On the sample archive, asked for
chapter 1, a path it does not hold, and chapter 2, `epubToTxt.go` returns
the text of the two chapters where `main.go` stops with `no such file`. -/
theorem C3_epubToTxt_readHTMLFiles_skips_unreadable_file :
    (∀ (lib : Lib) (src : List zipFile) (regexes : Option (List regexValues))
        (before : List String) (file : String) (after : List String) (err : String),
        (readFileFromZip src file).2 = some err →
        (∀ p ∈ before, ∃ t, convertFile lib src regexes p = .ok t) →
        Main.readHTMLFiles lib src (before ++ file :: after) regexes = .error (.fatal err))
    ∧ (∀ (lib : Lib) (src : List zipFile) (regexes : Option (List regexValues))
        (fileList : List String),
        (∃ file ∈ fileList, (readFileFromZip src file).2 ≠ none) →
        ∃ a, Main.readHTMLFiles lib src fileList regexes = .error a)
    ∧ (∀ (lib : Lib) (src : List zipFile) (regexes : Option (List regexValues))
        (fileList : List String),
        EpubToTxt.readHTMLFiles lib src fileList regexes
          = concatResults (fileList.map (fun file =>
              rewriteExtract lib regexes (readFileFromZip src file).1)))
    ∧ readFileFromZip sampleArchive "OEBPS/missing.html" = ("", some "no such file")
    ∧ EpubToTxt.readHTMLFiles (sampleLib sampleContainer samplePackage) sampleArchive
        ["OEBPS/ch1.html", "OEBPS/missing.html", "OEBPS/ch2.html"] none = .ok "Hello World"
    ∧ Main.readHTMLFiles (sampleLib sampleContainer samplePackage) sampleArchive
        ["OEBPS/ch1.html", "OEBPS/missing.html", "OEBPS/ch2.html"] none
        = .error (.fatal "no such file") := by
  refine ⟨?_, ?_, ?_, by decide, by decide, by decide⟩
  · intro lib src regexes before file after err herr hbefore
    rw [main_readHTMLFiles_eq, List.map_append, List.map_cons]
    have hfile : convertFile lib src regexes file = .error (.fatal err) := by
      unfold convertFile
      rcases hread : readFileFromZip src file with ⟨htmlCon, _ | err'⟩
      · rw [hread] at herr; cases herr
      · rw [hread] at herr; cases herr; rfl
    rw [hfile]
    apply concatResults_first_error
    intro x hx
    obtain ⟨p, hp, rfl⟩ := List.mem_map.1 hx
    exact hbefore p hp
  · intro lib src regexes fileList hfail
    rw [main_readHTMLFiles_eq]
    apply concatResults_error_of_mem
    obtain ⟨file, hmem, hne⟩ := hfail
    refine ⟨convertFile lib src regexes file, List.mem_map.2 ⟨file, hmem, rfl⟩, ?_⟩
    unfold convertFile
    rcases hread : readFileFromZip src file with ⟨htmlCon, _ | err'⟩
    · rw [hread] at hne; exact absurd rfl hne
    · exact ⟨_, rfl⟩
  · intro lib src regexes fileList
    rw [epubToTxt_readHTMLFiles_eq]
    rfl

/-- C7, counterexample.  The pattern `(` does not compile; `readRegexFile`
loads the rule all the same; with an empty file list `readHTMLFiles` returns
the empty text in both programs, and on an EPUB whose spine is empty the
whole run ends normally, the (empty) output file written. -/
theorem C7_counterexample_bad_pattern_with_empty_spine :
    (sampleLib sampleContainer emptySpinePackage).Compile "("
        = .error "error parsing regexp: missing closing ): ("
    ∧ readRegexFile (sampleWorld ["(", "x"]) "rules.txt" = .ok (some [⟨"(", "x"⟩])
    ∧ Main.readHTMLFiles (sampleLib sampleContainer emptySpinePackage) sampleArchive []
        (some [⟨"(", "x"⟩]) = .ok ""
    ∧ EpubToTxt.readHTMLFiles (sampleLib sampleContainer emptySpinePackage) sampleArchive []
        (some [⟨"(", "x"⟩]) = .ok ""
    ∧ Main.main (sampleLib sampleContainer emptySpinePackage) (sampleWorld ["(", "x"])
        "book.epub" "rules.txt" "" = .ok ("book.txt", "")
    ∧ EpubToTxt.main (sampleLib sampleContainer emptySpinePackage) (sampleWorld ["(", "x"])
        ["epubToTxt", "book.epub", "rules.txt"] = .ok ("book.txt", "") := by
  refine ⟨rfl, by decide, by decide, by decide, by decide, by decide⟩

/-- C7, as amended.  With a rule list holding a pattern that does not
compile and a file list that is not empty, `readHTMLFiles` returns no text:
in `epubToTxt.go` it ends with the panic of `regexp.MustCompile` on the first
such pattern, raised while the first file is processed; in `main.go` it ends
with that panic when the first file is read, and with the read error when it
is not.  Nothing is detected when the rules are loaded: `readRegexFile`
returns the rules whatever the patterns are; and with the empty file list
`readHTMLFiles` returns the empty text. -/
theorem C7_bad_pattern_fails_at_first_file (lib : Lib) (src : List zipFile)
    (rules : List regexValues) (file : String) (rest : List String)
    (hbad : ∃ r ∈ rules, ∃ e, lib.Compile r.pattern = .error e) :
    (∃ (good : List regexValues) (r : regexValues) (tail : List regexValues) (e : String),
        rules = good ++ r :: tail
        ∧ (∀ g ∈ good, ∃ re, lib.Compile g.pattern = .ok re)
        ∧ lib.Compile r.pattern = .error e
        ∧ EpubToTxt.readHTMLFiles lib src (file :: rest) (some rules) = .error (.panic e)
        ∧ ((readFileFromZip src file).2 = none →
            Main.readHTMLFiles lib src (file :: rest) (some rules) = .error (.panic e)))
    ∧ (∀ err, (readFileFromZip src file).2 = some err →
        Main.readHTMLFiles lib src (file :: rest) (some rules) = .error (.fatal err))
    ∧ (∃ a, Main.readHTMLFiles lib src (file :: rest) (some rules) = .error a)
    ∧ (∀ (w : World) (regexFile : String) (lines : List String),
        regexFile ≠ "" → w.Open regexFile = .ok ⟨lines, none⟩ →
        pairLines lines = rules →
        readRegexFile w regexFile = .ok (some rules))
    ∧ Main.readHTMLFiles lib src [] (some rules) = .ok ""
    ∧ EpubToTxt.readHTMLFiles lib src [] (some rules) = .ok "" := by
  obtain ⟨good, r, tail, e, hsplit, hgood, he⟩ := exists_first_bad lib rules hbad
  have hrw : ∀ doc, readHTMLFiles.rewrite lib (some rules) doc = .error (.panic e) := by
    intro doc
    rw [hsplit]
    exact readHTMLFiles.rewriteLoop_first_bad lib good r tail e hgood he doc
  have hepub : EpubToTxt.readHTMLFiles lib src (file :: rest) (some rules)
      = .error (.panic e) := by
    simp [EpubToTxt.readHTMLFiles, EpubToTxt.readHTMLFiles.loop, hrw]
  have hmain_ok : (readFileFromZip src file).2 = none →
      Main.readHTMLFiles lib src (file :: rest) (some rules) = .error (.panic e) := by
    intro h
    rcases hread : readFileFromZip src file with ⟨htmlCon, _ | err'⟩
    · simp [Main.readHTMLFiles, Main.readHTMLFiles.loop, hread, hrw]
    · rw [hread] at h; cases h
  have hmain_err : ∀ err, (readFileFromZip src file).2 = some err →
      Main.readHTMLFiles lib src (file :: rest) (some rules) = .error (.fatal err) := by
    intro err h
    rcases hread : readFileFromZip src file with ⟨htmlCon, _ | err'⟩
    · rw [hread] at h; cases h
    · rw [hread] at h; cases h
      simp [Main.readHTMLFiles, Main.readHTMLFiles.loop, hread]
  refine ⟨⟨good, r, tail, e, hsplit, hgood, he, hepub, hmain_ok⟩, hmain_err, ?_, ?_, rfl, rfl⟩
  · cases h : (readFileFromZip src file).2 with
    | none => exact ⟨_, hmain_ok h⟩
    | some err => exact ⟨_, hmain_err err h⟩
  · intro w regexFile lines hname hopen hpair
    rw [readRegexFile_eq w regexFile lines hname hopen, hpair]
    have hne : rules ≠ [] := by
      rw [hsplit]; simp
    cases rules with
    | nil => exact absurd rfl hne
    | cons a l => rfl

/-- C7, witness: the rule `(` and the first chapter of the sample archive. -/
theorem C7_bad_pattern_fails_at_first_file_witness :
    (∃ a, Main.readHTMLFiles (sampleLib sampleContainer samplePackage) sampleArchive
        ("OEBPS/ch1.html" :: ["OEBPS/ch2.html"]) (some [⟨"(", "x"⟩]) = .error a)
    ∧ Main.readHTMLFiles (sampleLib sampleContainer samplePackage) sampleArchive
        ["OEBPS/ch1.html", "OEBPS/ch2.html"] (some [⟨"(", "x"⟩])
        = .error (.panic "error parsing regexp: missing closing ): (") :=
  ⟨(C7_bad_pattern_fails_at_first_file (sampleLib sampleContainer samplePackage)
      sampleArchive [⟨"(", "x"⟩] "OEBPS/ch1.html" ["OEBPS/ch2.html"]
      ⟨⟨"(", "x"⟩, by simp, "error parsing regexp: missing closing ): (", rfl⟩).2.2.1, by decide⟩

/-! ## The name of the output file: `readUserInput` -/

theorem filepath.extScan_suffix (rev seen : List Char) (h : filepath.extScan rev seen ≠ []) :
    ∃ stem, rev.reverse ++ seen = stem ++ filepath.extScan rev seen := by
  induction rev generalizing seen with
  | nil => simp [filepath.extScan] at h
  | cons c rest ih =>
    by_cases hsep : c = filepath.Separator
    · simp [filepath.extScan, hsep] at h
    · by_cases hdot : c = '.'
      · have hds : ('.' : Char) ≠ filepath.Separator := by decide
        exact ⟨rest.reverse, by simp [filepath.extScan, hdot, hds]⟩
      · have h' : filepath.extScan rest (c :: seen) ≠ [] := by
          simpa [filepath.extScan, hsep, hdot] using h
        obtain ⟨stem, hstem⟩ := ih (c :: seen) h'
        exact ⟨stem, by simpa [filepath.extScan, hsep, hdot] using hstem⟩

theorem sliceBytesTo.takeBytes_append (stem ext : List Char) :
    sliceBytesTo.takeBytes (stem ++ ext) (String.utf8Len stem) = stem := by
  induction stem with
  | nil =>
    cases ext with
    | nil => rfl
    | cons c cs =>
      have := c.utf8Size_pos
      simp only [List.nil_append, String.utf8Len_nil, sliceBytesTo.takeBytes]
      rw [if_neg (by omega)]
  | cons c rest ih =>
    rw [List.cons_append, String.utf8Len_cons, sliceBytesTo.takeBytes, if_pos (by omega),
      Nat.add_sub_cancel, ih]

theorem filepath.Base_append (stem tail : List Char) (c : Char)
    (hc : c ≠ filepath.Separator) (htail : ∀ d ∈ tail, d ≠ filepath.Separator) :
    filepath.Base ⟨stem ++ tail ++ [c]⟩ = ⟨lastElement stem ++ tail ++ [c]⟩ := by
  have hne : (⟨stem ++ tail ++ [c]⟩ : String) ≠ "" := by
    intro h
    have := congrArg String.data h
    simp at this
  have hrev : (stem ++ tail ++ [c]).reverse = c :: (tail.reverse ++ stem.reverse) := by simp
  have hdrop : (c :: (tail.reverse ++ stem.reverse)).dropWhile (· == filepath.Separator)
      = c :: (tail.reverse ++ stem.reverse) := by
    simp [List.dropWhile_cons, hc]
  have htake : (c :: (tail.reverse ++ stem.reverse)).takeWhile (· != filepath.Separator)
      = c :: (tail.reverse ++ stem.reverse.takeWhile (· != filepath.Separator)) := by
    have h1 : ∀ d ∈ tail.reverse, (d != filepath.Separator) = true := by
      intro d hd
      simpa using htail d (List.mem_reverse.1 hd)
    simp only [List.takeWhile_cons, bne_iff_ne, ne_eq, hc, not_false_eq_true, ↓reduceIte]
    rw [List.takeWhile_append_of_pos h1]
  simp only [filepath.Base, hne, ↓reduceIte, hrev, hdrop, htake, lastElement]
  simp

theorem Main.readUserInput_of_ext (epubDir regexFile : String)
    (hext : filepath.Ext epubDir = ".epub") :
    ∃ stem : List Char, epubDir = ⟨stem ++ ".epub".data⟩
      ∧ Main.readUserInput epubDir regexFile "" = .ok ⟨epubDir, ⟨stem⟩, regexFile⟩ := by
  have hscan : filepath.extScan epubDir.data.reverse [] = ".epub".data := by
    have := congrArg String.data hext
    simpa [filepath.Ext] using this
  obtain ⟨stem, hstem⟩ := filepath.extScan_suffix epubDir.data.reverse []
    (by rw [hscan]; decide)
  rw [hscan] at hstem
  simp only [List.reverse_reverse, List.append_nil] at hstem
  have hdir : epubDir = ⟨stem ++ ".epub".data⟩ := by
    rw [← hstem]
  refine ⟨stem, hdir, ?_⟩
  have hsize : ((epubDir.utf8ByteSize : Int) - ((filepath.Ext epubDir).utf8ByteSize : Int))
      = (String.utf8Len stem : Int) := by
    have h5 : String.utf8Len ".epub".data = 5 := by decide
    have h5' : (".epub" : String).utf8ByteSize = 5 := by decide
    rw [hext, h5']
    conv_lhs => rw [hdir]
    simp only [String.utf8ByteSize_mk, String.utf8Len_append, h5]
    push_cast
    ring
  have hslice : sliceBytesTo epubDir (String.utf8Len stem : Int) = some ⟨stem⟩ := by
    have hle : String.utf8Len stem ≤ epubDir.utf8ByteSize := by
      conv_rhs => rw [hdir]
      simp [String.utf8ByteSize_mk, String.utf8Len_append]
    have htake : sliceBytesTo.takeBytes epubDir.data (String.utf8Len stem) = stem := by
      rw [hstem]
      exact sliceBytesTo.takeBytes_append stem _
    simp only [sliceBytesTo, Int.toNat_ofNat, htake]
    rw [if_pos ⟨by omega, by exact_mod_cast hle⟩]
  simp only [Main.readUserInput, hsize, hslice]
  simp [hext]

/-- C9.  In `epubToTxt.go` the name is cut in a slice of runes at an offset
counted in bytes: for the argument `é.epub` (base name of 7 bytes and 6
runes, extension of 5 bytes) the slice is cut after 2 runes, the file name is
`é.` and the output file `é..txt`, not `é.txt`.  In `main.go` the string is
cut by bytes: for every `-epub` value of extension `.epub` and no `-output`,
the output file is the value with `.epub` replaced by `.txt`, whose last
element is the base name of the EPUB with `.epub` replaced by `.txt`; for
`é.epub` it is `é.txt`.  On `dir/book.epub` both give `dir/book.txt`. -/
theorem C9_epubToTxt_readUserInput_cuts_runes_at_byte_offset :
    (∀ lib : Lib, (EpubToTxt.readUserInput lib ["epubToTxt", "é.epub"]).map outputFileName
        = .ok "é..txt")
    ∧ filepath.Base "é.epub" = "é.epub"
    ∧ (filepath.Base "é.epub").utf8ByteSize = 7
    ∧ (filepath.Base "é.epub").data.length = 6
    ∧ (filepath.Ext "é.epub").utf8ByteSize = 5
    ∧ filepath.Base "é..txt" ≠ "é.txt"
    ∧ (Main.readUserInput "é.epub" "" "").map outputFileName = .ok "é.txt"
    ∧ (∀ lib : Lib, (EpubToTxt.readUserInput lib ["epubToTxt", "dir/book.epub"]).map
        outputFileName = .ok "dir/book.txt")
    ∧ (Main.readUserInput "dir/book.epub" "" "").map outputFileName = .ok "dir/book.txt"
    ∧ (∀ epubDir regexFile : String, filepath.Ext epubDir = ".epub" →
        ∃ stem : List Char, epubDir = ⟨stem ++ ".epub".data⟩
          ∧ (Main.readUserInput epubDir regexFile "").map outputFileName
              = .ok ⟨stem ++ ".txt".data⟩
          ∧ filepath.Base epubDir = ⟨lastElement stem ++ ".epub".data⟩
          ∧ filepath.Base ⟨stem ++ ".txt".data⟩ = ⟨lastElement stem ++ ".txt".data⟩) := by
  refine ⟨fun _ => rfl, by decide, by decide, by decide, by decide, by decide, by decide,
    fun _ => rfl, by decide, ?_⟩
  intro epubDir regexFile hext
  obtain ⟨stem, hdir, hrun⟩ := Main.readUserInput_of_ext epubDir regexFile hext
  refine ⟨stem, hdir, ?_, ?_, ?_⟩
  · rw [hrun]
    simp only [Except.map, outputFileName]
    rfl
  · have h : ".epub".data = ['.', 'e', 'p', 'u'] ++ ['b'] := by decide
    rw [hdir, h, ← List.append_assoc, ← List.append_assoc]
    exact filepath.Base_append stem ['.', 'e', 'p', 'u'] 'b' (by decide) (by decide)
  · have h : ".txt".data = ['.', 't', 'x'] ++ ['t'] := by decide
    rw [h, ← List.append_assoc, ← List.append_assoc]
    exact filepath.Base_append stem ['.', 't', 'x'] 't' (by decide) (by decide)
